import Mathlib

/-!
Verification of the OGCServer WMS request-handling core (ogcserver/common.py)
against its natural-language specification.

The Python source is shallowly embedded: Python dicts become association
lists over String keys (assignment updates in place, preserving order),
Python exceptions become an `Err` sum type threaded through `Except`, the
mutable mapnik layer objects reachable from the catalog become entries of an
explicit `Store` addressed by natural-number references, and per-request
mutation (`layer.styles.append`, `m.append_style`, `m.layers.append`) becomes
functional update of the store / map record at the referenced entry.
-/

namespace OGCServer

/-- Python values as they occur in the parameter mappings handled by
`BaseServiceHandler.processParameters`: `None`, strings and integers.
Truthiness follows Python. -/
inductive Value where
  | vnone
  | vstr (s : String)
  | vint (n : Int)
deriving Repr, DecidableEq

/-- Python truthiness of a `Value` (`None`, `""` and `0` are falsy). -/
def vTruthy : Value → Bool
  | .vnone => false
  | .vstr s => s ≠ ""
  | .vint n => n ≠ 0

/-- The exceptions raised by the embedded code.  `OGCException` raise sites
are distinguished by constructor (the optional structured code of the source
is reflected in the constructor name); `ServerConfigurationError` is
`undefinedStyle`; the Python builtin exceptions that the source can raise on
its own (`KeyError`, `AttributeError`, `IndexError`, `NameError`) get their
own constructors. -/
inductive Err where
  | missingParameter (name : String)
  | invalidParameterValue (name : String)
  | illegalParameterValue (name : String)
  | unsupportedCRS (crs : String)
  | invalidBBox (which : String)
  | layerNotDefined (name : String)
  | styleNotDefined (style lname : String)
  | undefinedStyle (lname style : String)
  | layerNotQueryable (name : String)
  | layerNotInRequest (name : String)
  | keyError (key : String)
  | attributeError (attr : String)
  | indexError
  | nameError (n : String)
deriving Repr, DecidableEq

/-- Result of calling a parameter definition's `cast` callable: a value, an
`OGCException` raised by the cast itself (re-raised verbatim by
`processParameters`), or any other exception (wrapped as an invalid-value
error). -/
inductive CastResult where
  | ok (v : Value)
  | ogcError (e : Err)
  | exn

/-- `ParameterDefinition` from common.py: mandatory flag, cast callable,
default (Python `None` becomes `Value.vnone`), optional tuple of allowed
values, fallback flag. -/
structure ParameterDefinition where
  mandatory : Bool
  cast : Value → CastResult
  default : Value
  allowedvalues : Option (List Value)
  fallback : Bool

/-- Association-list lookup, the embedding of Python `d[k]` / `k in d`. -/
def alookup {α : Type} : List (String × α) → String → Option α
  | [], _ => none
  | (k, v) :: rest, key => if k = key then some v else alookup rest key

/-- Association-list assignment `d[k] = v`: updates the existing entry in
place, otherwise appends, exactly like a Python dict. -/
def aset {α : Type} : List (String × α) → String → α → List (String × α)
  | [], k, v => [(k, v)]
  | (k', v') :: rest, k, v => if k' = k then (k, v) :: rest else (k', v') :: aset rest k v

/-- Truthiness of `paramdef.allowedvalues` (`None` and the empty tuple are
falsy, so the membership check in `processParameters` is skipped for them). -/
def avTruthy : Option (List Value) → Bool
  | none => false
  | some l => l ≠ []

/-- One iteration of the `processParameters` loop (lines 101-119 of
common.py) for the schema entry (name, d): returns the updated
(finalparams, params) pair — `params` because line 106 writes the cast value
back into the caller's dict — or the raised exception. -/
def processOneParam (name : String) (d : ParameterDefinition)
    (params finalparams : List (String × Value)) :
    Except Err (List (String × Value) × List (String × Value)) :=
  match alookup params name with
  | none =>
    if d.mandatory then .error (.missingParameter name)
    else if vTruthy d.default then .ok (aset finalparams name d.default, params)
    else .ok (finalparams, params)
  | some v =>
    match d.cast v with
    | .ogcError e => .error e
    | .exn => .error (.invalidParameterValue name)
    | .ok v' =>
      let params' := aset params name v'
      if avTruthy d.allowedvalues ∧ v' ∉ d.allowedvalues.getD [] then
        if ¬ d.fallback then .error (.illegalParameterValue name)
        else .ok (aset finalparams name d.default, params')
      else .ok (aset finalparams name v', params')

/-- `BaseServiceHandler.processParameters`, lines 99-120 of common.py.  The
schema `SERVICE_PARAMS[requestname]` is embedded as an ordered list of
(name, definition) pairs (one fixed iteration order of the Python dict). -/
def processParameters :
    List (String × ParameterDefinition) → List (String × Value) → List (String × Value) →
    Except Err (List (String × Value) × List (String × Value))
  | [], params, finalparams => .ok (finalparams, params)
  | (name, d) :: rest, params, finalparams =>
    match processOneParam name d params finalparams with
    | .error e => .error e
    | .ok (f', p') => processParameters rest p' f'

/-- Entry point: `finalparams` starts out as the empty dict. -/
def processParametersTop (schema : List (String × ParameterDefinition))
    (params : List (String × Value)) :
    Except Err (List (String × Value) × List (String × Value)) :=
  processParameters schema params []

/-- Python's str.lower() (character-wise lowercasing), used by `CRS.__init__`. -/
def pyLower (s : String) : String := String.mk (s.data.map Char.toLower)

/-- The `CRS` value type of common.py: the constructor lowercases the
namespace and int()s the code. `namespace` is a Lean keyword, so the field
is called `ns`. -/
structure CRS where
  ns : String
  code : Int
deriving Repr, DecidableEq

/-- `CRS.__init__`: `self.namespace = namespace.lower(); self.code = int(code)`. -/
def mkCRS (ns : String) (code : Int) : CRS :=
  { ns := pyLower ns, code := code }

/-- `CRS.__repr__`: `'%s:%s' % (self.namespace, self.code)`. -/
def crsRepr (c : CRS) : String :=
  c.ns ++ ":" ++ toString c.code

/-- `CRS.__eq__`: `str(other) == str(self)`. -/
def crsEq (self other : CRS) : Bool :=
  crsRepr other == crsRepr self

/- ### C1 -/

/-- C1 counterexample input: an allowed-value set that is declared but empty.
The empty tuple is falsy in Python, so line 111's membership check is
skipped entirely. -/
def c1def : ParameterDefinition :=
  { mandatory := false, cast := fun v => .ok v, default := .vnone,
    allowedvalues := some [], fallback := false }

/- ### C2 -/

/-- C2 counterexample schema: the first-iterated parameter has a cast that
raises a non-OGC exception; the second is mandatory. -/
def c2badDef : ParameterDefinition :=
  { mandatory := false, cast := fun _ => .exn, default := .vnone,
    allowedvalues := none, fallback := false }

/-- C2: mandatory pass-through definition used by the counterexample and
witness. -/
def c2mandDef : ParameterDefinition :=
  { mandatory := true, cast := fun v => .ok v, default := .vnone,
    allowedvalues := none, fallback := false }

/- ### C6 -/

/-- C6 counterexample cast: parses the decimal string "5" to the int 5. -/
def c6def : ParameterDefinition :=
  { mandatory := false,
    cast := fun v => match v with | .vstr "5" => .ok (.vint 5) | _ => .exn,
    default := .vnone, allowedvalues := none, fallback := false }

/- ### The map-building state: mapnik layer objects, the catalog, the map -/

/-- mapnik colors (`mapnik.Color(r, g, b, a)`); a Color object is always
truthy in Python. -/
structure MColor where
  r : Nat
  g : Nat
  b : Nat
  a : Nat
deriving Repr, DecidableEq

/-- `Color(0, 0, 0, 0)`, the fully transparent background of line 384. -/
def transparentColor : MColor := ⟨0, 0, 0, 0⟩

/-- Style objects are abstract handles to mapnik Style values; only their
identity matters here. -/
abbrev StyleObj := Nat

/-- A mapnik layer object as the source reads and writes it: the fields
`copy_layer` (lines 281-307) transfers, plus the mutable `styles` list.
`wmsdefaultstyle`, `wmsextrastyles` and `meta_style` are set on catalog
entries only when configuration attached them, hence `Option` (mirroring the
`hasattr` checks); accessing an absent one raises AttributeError. -/
structure LayerObj where
  name : String
  srs : String
  minzoom : Rat
  maxzoom : Rat
  active : Bool
  queryable : Bool
  clear_label_cache : Bool
  datasource : Nat
  wmsdefaultstyle : Option String
  wmsextrastyles : Option (List String)
  meta_style : Option String
  styles : List String
deriving Repr, DecidableEq

/-- `copy_layer` (lines 281-307): builds a fresh `Layer(obj.name)` and
copies the scalar fields and the optional wms attributes; the fresh layer
starts with an empty `styles` list. The `datasource` handle is copied by
reference (the same handle value). -/
def copy_layer (obj : LayerObj) : LayerObj :=
  { name := obj.name
    srs := obj.srs
    minzoom := obj.minzoom
    maxzoom := obj.maxzoom
    active := obj.active
    queryable := obj.queryable
    clear_label_cache := obj.clear_label_cache
    datasource := obj.datasource
    wmsdefaultstyle := obj.wmsdefaultstyle
    wmsextrastyles := obj.wmsextrastyles
    meta_style := obj.meta_style
    styles := [] }

/-- The heap of mapnik layer objects: catalog entries and per-request copies
live here; a layer reference is an index into this list.  Python-level
aliasing of layer objects is aliasing of indices. -/
abbrev Store := List LayerObj

/-- Dereference a layer object (never fails for the references the code
creates; a dangling reference is an IndexError). -/
def getLayer (σ : Store) (r : Nat) : Except Err LayerObj :=
  match σ.get? r with
  | some obj => .ok obj
  | none => .error .indexError

/-- `layer = copy_layer(obj)`: allocates the copy as a fresh store entry and
returns its reference. -/
def copyLayerAlloc (σ : Store) (r : Nat) : Except Err (Store × Nat) :=
  match σ.get? r with
  | some obj => .ok (σ ++ [copy_layer obj], σ.length)
  | none => .error .indexError

/-- `layer.styles.append(s)`: in-place mutation of the referenced layer. -/
def appendStyleToLayer (σ : Store) (r : Nat) (s : String) : Store :=
  match σ.get? r with
  | some obj => σ.set r { obj with styles := obj.styles ++ [s] }
  | none => σ

/-- Appending a sequence of style names (the aggregate-style expansion loop). -/
def appendStylesToLayer (σ : Store) (r : Nat) (ss : List String) : Store :=
  ss.foldl (fun σc s => appendStyleToLayer σc r s) σ

/-- The WMS `mapfactory` catalog as `_buildMap` consumes it: layer objects
are referenced by store index; `ordered_layers` preserves mapfile order,
`layers` / `meta_layers` are name-keyed dicts; `map_attributes` carries the
optional map-level background color and buffer size. -/
structure MapFactory where
  ordered_layers : List Nat
  layers : List (String × Nat)
  meta_layers : List (String × Nat)
  meta_styles : List (String × StyleObj)
  styles : List (String × StyleObj)
  aggregatestyles : List (String × List String)
  map_attributes_bgcolor : Option MColor
  map_attributes_buffer : Option Int
deriving Repr, DecidableEq

/-- The mapnik `Map` under construction: background/buffer start unset, the
style table and layer list start empty, extent is set by `zoom_to_box`. -/
structure MapnikMap where
  width : Nat
  height : Nat
  srs : String
  background : Option MColor
  buffer : Option Int
  mstyles : List (String × StyleObj)
  mlayers : List Nat
  extent : Option (Rat × Rat × Rat × Rat)
deriving Repr, DecidableEq

/-- `m.append_style(name, style)`: mapnik registers the style only if the
name is not already present (it returns False on a duplicate, never raises). -/
def mapAppendStyle (m : MapnikMap) (name : String) (st : StyleObj) : MapnikMap :=
  match alookup m.mstyles name with
  | some _ => m
  | none => { m with mstyles := m.mstyles ++ [(name, st)] }

/-- The validated GetMap/GetFeatureInfo parameters as `_buildMap` and
`GetFeatureInfo` read them.  `transparent`, `bgcolor` and `buffer_size` are
optional keys (`has_key` / KeyError semantics); the bbox is the four
comma-separated floats. -/
structure WMSParams where
  width : Nat
  height : Nat
  crs : CRS
  bbox0 : Rat
  bbox1 : Rat
  bbox2 : Rat
  bbox3 : Rat
  layers : List String
  styles : List String
  transparent : Option String
  bgcolor : Option MColor
  buffer_size : Option Int
  query_layers : List String
  info_format : String
  pix_i : Int
  pix_j : Int
deriving Repr, DecidableEq

/-- The WMS service handler state used by `_buildMap`: the catalog and the
set of allowed `namespace:code` strings. -/
structure WMSHandler where
  mapfactory : MapFactory
  allowedepsgcodes : List String
deriving Repr, DecidableEq

/-- `Response(content_type, content)` from common.py. -/
structure Response where
  content_type : String
  content : String
deriving Repr, DecidableEq

/-- `Map(width, height, '+init=%s' % crs)` — fresh map, nothing set yet. -/
def initMap (p : WMSParams) : MapnikMap :=
  { width := p.width, height := p.height, srs := "+init=" ++ crsRepr p.crs,
    background := none, buffer := none, mstyles := [], mlayers := [], extent := none }

/-- The `transparent` values that select the explicit-background branch. -/
def falseStrings : List String := ["FALSE", "False", "false"]

/-- Lines 378-384: background resolution.  `params['bgcolor']` raises
KeyError when `transparent` is in the FALSE family but no bgcolor key is
present. -/
def resolveBackground (h : WMSHandler) (p : WMSParams) (m : MapnikMap) :
    Except Err MapnikMap :=
  if p.transparent.isSome ∧ p.transparent.getD "" ∈ falseStrings then
    match p.bgcolor with
    | none => .error (.keyError "bgcolor")
    | some c => .ok { m with background := some c }
  else if p.transparent.isNone ∧ h.mapfactory.map_attributes_bgcolor.isSome then
    .ok { m with background := h.mapfactory.map_attributes_bgcolor }
  else
    .ok { m with background := some transparentColor }

/-- Lines 386-392: buffer resolution (`if params['buffer_size']:` — a zero
buffer is falsy and sets nothing; the catalog default is consulted only when
the key is absent). -/
def resolveBuffer (h : WMSHandler) (p : WMSParams) (m : MapnikMap) : MapnikMap :=
  match p.buffer_size with
  | some b => if b ≠ 0 then { m with buffer := some b } else m
  | none =>
    match h.mapfactory.map_attributes_buffer with
    | some b => if b ≠ 0 then { m with buffer := some b } else m
    | none => m

/-- `m.zoom_to_box(Envelope(bbox))`, line 460. -/
def zoomToBox (p : WMSParams) (m : MapnikMap) : MapnikMap :=
  { m with extent := some (p.bbox0, p.bbox1, p.bbox2, p.bbox3) }

/-- The two meta-overlay sentinel layer names of lines 396. -/
def haitiNames : List String := ["osm_haiti_overlay", "osm_haiti_overlay_900913"]

/-- One iteration of the haiti-overlay loop (lines 397-404): copy the layer;
layers without a meta_style are skipped (`pass`), the copy discarded; for the
rest the meta style is appended to the copy's style list, registered on the
map (a missing `meta_styles` entry is a KeyError), and the copy is appended
to the map's layers. -/
def haitiStep (mf : MapFactory) (r : Nat) (ms : MapnikMap × Store) :
    Except Err (MapnikMap × Store) :=
  match copyLayerAlloc ms.2 r with
  | .error e => .error e
  | .ok (σ₁, nr) =>
    match getLayer σ₁ nr with
    | .error e => .error e
    | .ok layer =>
      match layer.meta_style with
      | none => .ok (ms.1, σ₁)
      | some msty =>
        let σ₂ := appendStyleToLayer σ₁ nr msty
        match alookup mf.meta_styles msty with
        | none => .error (.keyError "meta_styles")
        | some sobj =>
          let m₁ := mapAppendStyle ms.1 msty sobj
          .ok ({ m₁ with mlayers := m₁.mlayers ++ [nr] }, σ₂)

/-- The haiti-overlay loop over `mapfactory.ordered_layers`. -/
def buildHaiti (mf : MapFactory) :
    List Nat → MapnikMap × Store → Except Err (MapnikMap × Store)
  | [], ms => .ok ms
  | r :: rest, ms =>
    match haitiStep mf r ms with
    | .error e => .error e
    | .ok ms' => buildHaiti mf rest ms'

/-- `for stylename in layer.styles:` of the `__all__` branch (lines 421-423):
register each style that exists in the catalog style table; unknown names
are silently skipped (no else in this branch). -/
def regStylesLoose (mf : MapFactory) : List String → MapnikMap → MapnikMap
  | [], m => m
  | s :: rest, m =>
    match alookup mf.styles s with
    | some sobj => regStylesLoose mf rest (mapAppendStyle m s sobj)
    | none => regStylesLoose mf rest m

/-- One iteration of the `__all__` loop (lines 408-424): copy the layer,
skip meta-style-only layers, expand the layer's default style through the
aggregate table onto the copy's style list, register the known styles, append
the copy to the map's layers.  Reading `wmsdefaultstyle` off a layer that
never had one raises AttributeError. -/
def allStep (mf : MapFactory) (r : Nat) (ms : MapnikMap × Store) :
    Except Err (MapnikMap × Store) :=
  match copyLayerAlloc ms.2 r with
  | .error e => .error e
  | .ok (σ₁, nr) =>
    match getLayer σ₁ nr with
    | .error e => .error e
    | .ok layer =>
      if layer.meta_style.isSome then .ok (ms.1, σ₁)
      else
        match layer.wmsdefaultstyle with
        | none => .error (.attributeError "wmsdefaultstyle")
        | some reqstyle =>
          let σ₂ :=
            match alookup mf.aggregatestyles reqstyle with
            | some mems => appendStylesToLayer σ₁ nr mems
            | none => appendStyleToLayer σ₁ nr reqstyle
          match getLayer σ₂ nr with
          | .error e => .error e
          | .ok layer₂ =>
            let m₁ := regStylesLoose mf layer₂.styles ms.1
            .ok ({ m₁ with mlayers := m₁.mlayers ++ [nr] }, σ₂)

/-- The `__all__` loop over `mapfactory.ordered_layers`. -/
def buildAll (mf : MapFactory) :
    List Nat → MapnikMap × Store → Except Err (MapnikMap × Store)
  | [], ms => .ok ms
  | r :: rest, ms =>
    match allStep mf r ms with
    | .error e => .error e
    | .ok ms' => buildAll mf rest ms'

/-- `for stylename in layer.styles:` of the explicit branch (lines 453-457):
register each style; a style name absent from the catalog style table raises
ServerConfigurationError. -/
def regStylesStrict (mf : MapFactory) (lname : String) :
    List String → MapnikMap → Except Err MapnikMap
  | [], m => .ok m
  | s :: rest, m =>
    match alookup mf.styles s with
    | some sobj => regStylesStrict mf lname rest (mapAppendStyle m s sobj)
    | none => .error (.undefinedStyle lname s)

/-- Tail of a concrete-layer iteration of the explicit branch
(lines 447-459), after the requested style has been resolved to `rq`:
aggregate-expand `rq` onto the copy's style list, register all listed styles
(strictly), and append the copy to the map's layers. -/
def explFinish (mf : MapFactory) (name : String) (m : MapnikMap) (σ : Store)
    (nr : Nat) (rq : String) : Except Err (MapnikMap × Store) :=
  let σ₂ :=
    match alookup mf.aggregatestyles rq with
    | some mems => appendStylesToLayer σ nr mems
    | none => appendStyleToLayer σ nr rq
  match getLayer σ₂ nr with
  | .error e => .error e
  | .ok layer₂ =>
    match regStylesStrict mf name layer₂.styles m with
    | .error e => .error e
    | .ok m₁ => .ok ({ m₁ with mlayers := m₁.mlayers ++ [nr] }, σ₂)

/-- One iteration of the explicit-layer-list loop (lines 426-459) for the
entry at positional index `i` with layer name `name`: a meta-layer name uses
the meta-layer template with its own name as style; otherwise the concrete
layer is looked up (LayerNotDefined if absent) and copied, the requested
style is read positionally from the styles list (IndexError means the empty
string), a non-empty style not among the layer's extra styles is
StyleNotDefined, an empty one resolves to the layer's default style. -/
def explStep (mf : MapFactory) (sp : List String) (i : Nat) (name : String)
    (ms : MapnikMap × Store) : Except Err (MapnikMap × Store) :=
  match alookup mf.meta_layers name with
  | some mr =>
    (match copyLayerAlloc ms.2 mr with
     | .error e => .error e
     | .ok (σ₁, nr) =>
       let σ₂ := appendStyleToLayer σ₁ nr name
       match alookup mf.meta_styles name with
       | none => .error (.keyError "meta_styles")
       | some sobj =>
         let m₁ := mapAppendStyle ms.1 name sobj
         .ok ({ m₁ with mlayers := m₁.mlayers ++ [nr] }, σ₂))
  | none =>
    match alookup mf.layers name with
    | none => .error (.layerNotDefined name)
    | some cr =>
      match copyLayerAlloc ms.2 cr with
      | .error e => .error e
      | .ok (σ₁, nr) =>
        match getLayer σ₁ nr with
        | .error e => .error e
        | .ok layer =>
          let reqstyle := (sp.get? i).getD ""
          if reqstyle ≠ "" then
            match layer.wmsextrastyles with
            | none => .error (.attributeError "wmsextrastyles")
            | some exs =>
              if reqstyle ∈ exs then explFinish mf name ms.1 σ₁ nr reqstyle
              else .error (.styleNotDefined reqstyle name)
          else
            match layer.wmsdefaultstyle with
            | none => .error (.attributeError "wmsdefaultstyle")
            | some ds => explFinish mf name ms.1 σ₁ nr ds

/-- The explicit-layer-list loop (`for layerindex, layername in
enumerate(params['layers'])`), carrying the positional index. -/
def buildExpl (mf : MapFactory) (sp : List String) :
    Nat → List String → MapnikMap × Store → Except Err (MapnikMap × Store)
  | _, [], ms => .ok ms
  | i, name :: rest, ms =>
    match explStep mf sp i name ms with
    | .error e => .error e
    | .ok ms' => buildExpl mf sp (i + 1) rest ms'

/-- Layer-resolution dispatch of `_buildMap` (lines 396, 407, 425): the haiti
overlay sentinels and `__all__` are recognized as the sole-tested first
element of a non-empty layer list; everything else (including an empty list)
goes through the explicit loop. -/
def buildLayers (mf : MapFactory) (p : WMSParams) (ms : MapnikMap × Store) :
    Except Err (MapnikMap × Store) :=
  match p.layers with
  | hd :: _ =>
    if hd ∈ haitiNames then buildHaiti mf mf.ordered_layers ms
    else if hd = "__all__" then buildAll mf mf.ordered_layers ms
    else buildExpl mf p.styles 0 p.layers ms
  | [] => buildExpl mf p.styles 0 p.layers ms

/-- `WMSBaseServiceHandler._buildMap` (lines 363-461): CRS membership check
first, then the two bbox checks, then map construction, background and
buffer resolution, layer resolution and the final zoom_to_box. -/
def buildMap (h : WMSHandler) (p : WMSParams) (σ : Store) :
    Except Err (MapnikMap × Store) :=
  if crsRepr p.crs ∉ h.allowedepsgcodes then
    .error (.unsupportedCRS (crsRepr p.crs))
  else if p.bbox0 ≥ p.bbox2 then .error (.invalidBBox "minx is greater than maxx")
  else if p.bbox1 ≥ p.bbox3 then .error (.invalidBBox "miny is greater than maxy")
  else
    match resolveBackground h p (initMap p) with
    | .error e => .error e
    | .ok m₁ =>
      match buildLayers h.mapfactory p (resolveBuffer h p m₁, σ) with
      | .error e => .error e
      | .ok (m₃, σ₃) => .ok (zoomToBox p m₃, σ₃)

/- ### GetFeatureInfo -/

/-- A queried feature: its ordered (name, value) attribute pairs, already
stringified. -/
abbrev Feature := List (String × String)

/-- The external renderer's point query `m.query_point(layerindex, i, j)`:
an abstract function from the map-layer index and the pixel coordinates to
the returned feature list. -/
abbrev QueryFn := Nat → Int → Int → List Feature

/-- The feature-info writer: either a `TextFeatureInfo` (a flat text buffer,
lines 545-560) or an `XMLFeatureInfo` (the children of the `<resultset>`
root: a list of named layers, each a list of features, each a list of
attribute pairs; lines 562-594).  `currentlayer` / `currentfeature` are
always the most recently appended ones. -/
inductive FIWriter where
  | text (buf : String)
  | xml (layers : List (String × List Feature))
deriving Repr, DecidableEq

/-- Replace the last element of a list (the writer's current layer/feature). -/
def updateLast {α : Type} (f : α → α) : List α → List α
  | [] => []
  | [a] => [f a]
  | a :: rest => a :: updateLast f rest

/-- `writer.addlayer(name)`. -/
def fiAddLayer (w : FIWriter) (name : String) : FIWriter :=
  match w with
  | .text b => .text (b ++ "\n[" ++ name ++ "]\n")
  | .xml ls => .xml (ls ++ [(name, [])])

/-- `writer.addfeature()` (a no-op for the text writer). -/
def fiAddFeature (w : FIWriter) : FIWriter :=
  match w with
  | .text b => .text b
  | .xml ls => .xml (updateLast (fun lf => (lf.1, lf.2 ++ [[]])) ls)

/-- `writer.addattribute(name, value)`. -/
def fiAddAttribute (w : FIWriter) (name value : String) : FIWriter :=
  match w with
  | .text b => .text (b ++ name ++ "=" ++ value ++ "\n")
  | .xml ls =>
    .xml (updateLast (fun lf => (lf.1, updateLast (fun ft => ft ++ [(name, value)]) lf.2)) ls)

/-- Serialization of one XML attribute element. -/
def xmlRenderAttr (a : String × String) : String :=
  "<attribute><name>" ++ a.1 ++ "</name><value>" ++ a.2 ++ "</value></attribute>"

/-- Serialization of one XML feature element. -/
def xmlRenderFeature (f : Feature) : String :=
  "<feature>" ++ String.join (f.map xmlRenderAttr) ++ "</feature>"

/-- Serialization of one XML layer element. -/
def xmlRenderLayer (l : String × List Feature) : String :=
  "<layer name=\"" ++ l.1 ++ "\">" ++ String.join (l.2.map xmlRenderFeature) ++ "</layer>"

/-- `str(writer)`: the text buffer as is; for XML, the processing
instruction line followed by the serialized `<resultset>` tree. -/
def fiStr (w : FIWriter) : String :=
  match w with
  | .text b => b
  | .xml ls =>
    "<?xml version=\"1.0\"?>\n<resultset>" ++ String.join (ls.map xmlRenderLayer) ++ "</resultset>"

/-- Lines 320-323: writer selection by `info_format`; any other format
leaves `writer` unbound, so its first use raises NameError. -/
def writerInit (fmt : String) : Option FIWriter :=
  if fmt = "text/plain" then some (.text "")
  else if fmt = "text/xml" then some (.xml [])
  else none

/-- Use of the possibly-unbound `writer` variable. -/
def fiUse (ow : Option FIWriter) : Except Err FIWriter :=
  match ow with
  | some w => .ok w
  | none => .error (.nameError "writer")

/-- Writing one queried layer's non-empty feature list: `addlayer`, then per
feature `addfeature` and its attributes (lines 329-337). -/
def addFeatures (w : FIWriter) (lname : String) (feats : List Feature) : FIWriter :=
  feats.foldl
    (fun wc f => f.foldl (fun wcc a => fiAddAttribute wcc a.1 a.2) (fiAddFeature wc))
    (fiAddLayer w lname)

/-- The `query_layers = __all__` loop (lines 325-337): every map layer is
point-queried by index; layers yielding no features contribute nothing. -/
def fiAll (σ : Store) (qp : QueryFn) (px py : Int) :
    Nat → List Nat → Option FIWriter → Except Err (Option FIWriter)
  | _, [], ow => .ok ow
  | idx, r :: rest, ow =>
    match getLayer σ r with
    | .error e => .error e
    | .ok layer =>
      let feats := qp idx px py
      if feats ≠ [] then
        match fiUse ow with
        | .error e => .error e
        | .ok w => fiAll σ qp px py (idx + 1) rest (some (addFeatures w layer.name feats))
      else fiAll σ qp px py (idx + 1) rest ow

/-- The explicit `query_layers` loop (lines 339-360).  Note the positional
defect the source's own TODO comment flags: the index of the name inside
`query_layers` is used to index `m.layers`, so the queryable check and the
query itself hit `m.layers[layerindex]`, not the named layer. -/
def fiExpl (σ : Store) (qp : QueryFn) (px py : Int) (layersParam : List String)
    (mlayers : List Nat) :
    Nat → List String → Option FIWriter → Except Err (Option FIWriter)
  | _, [], ow => .ok ow
  | idx, qname :: rest, ow =>
    if qname ∈ layersParam then
      match mlayers.get? idx with
      | none => .error .indexError
      | some r =>
        match getLayer σ r with
        | .error e => .error e
        | .ok layer =>
          if layer.queryable then
            let feats := qp idx px py
            if feats ≠ [] then
              match fiUse ow with
              | .error e => .error e
              | .ok w =>
                fiExpl σ qp px py layersParam mlayers (idx + 1) rest
                  (some (addFeatures w layer.name feats))
            else fiExpl σ qp px py layersParam mlayers (idx + 1) rest ow
          else .error (.layerNotQueryable qname)
    else .error (.layerNotInRequest qname)

/-- `WMSBaseServiceHandler.GetFeatureInfo` (lines 318-361): build the map,
select the writer by `info_format`, run the `__all__` or explicit
query-layer loop, and return `Response(info_format, str(writer))`. -/
def GetFeatureInfo (h : WMSHandler) (p : WMSParams) (σ : Store) (qp : QueryFn) :
    Except Err Response :=
  match buildMap h p σ with
  | .error e => .error e
  | .ok (m, σ') =>
    let ow := writerInit p.info_format
    let owres :=
      if p.query_layers ≠ [] ∧ p.query_layers.head? = some "__all__" then
        fiAll σ' qp p.pix_i p.pix_j 0 m.mlayers ow
      else
        fiExpl σ' qp p.pix_i p.pix_j p.layers m.mlayers 0 p.query_layers ow
    match owres with
    | .error e => .error e
    | .ok ow' =>
      match fiUse ow' with
      | .error e => .error e
      | .ok w => .ok { content_type := p.info_format, content := fiStr w }

/- ### Concrete fixtures used by witnesses and counterexamples -/

/-- An empty catalog. -/
def mfEmpty : MapFactory :=
  { ordered_layers := [], layers := [], meta_layers := [], meta_styles := [],
    styles := [], aggregatestyles := [], map_attributes_bgcolor := none,
    map_attributes_buffer := none }

/-- Baseline valid GetMap parameters: allowed CRS, sane bbox, no layers. -/
def pBase : WMSParams :=
  { width := 256, height := 256, crs := mkCRS "EPSG" 4326,
    bbox0 := 0, bbox1 := 0, bbox2 := 1, bbox3 := 1,
    layers := [], styles := [], transparent := none, bgcolor := none,
    buffer_size := none, query_layers := [], info_format := "text/plain",
    pix_i := 0, pix_j := 0 }

/-- Handler over the empty catalog allowing epsg:4326. -/
def hEmpty : WMSHandler := { mapfactory := mfEmpty, allowedepsgcodes := ["epsg:4326"] }

/-- A queryable catalog layer with default style "sA". -/
def layerA : LayerObj :=
  { name := "layerA", srs := "+init=epsg:4326", minzoom := 0, maxzoom := 1000000,
    active := true, queryable := true, clear_label_cache := false, datasource := 0,
    wmsdefaultstyle := some "sA", wmsextrastyles := some [], meta_style := none,
    styles := [] }

/-- A non-queryable catalog layer with default style "sB". -/
def layerB : LayerObj :=
  { name := "layerB", srs := "+init=epsg:4326", minzoom := 0, maxzoom := 1000000,
    active := true, queryable := false, clear_label_cache := false, datasource := 1,
    wmsdefaultstyle := some "sB", wmsextrastyles := some [], meta_style := none,
    styles := [] }

/-- Two-layer catalog: layerA queryable, layerB not. -/
def mfAB : MapFactory :=
  { ordered_layers := [0, 1], layers := [("layerA", 0), ("layerB", 1)],
    meta_layers := [], meta_styles := [], styles := [("sA", 10), ("sB", 11)],
    aggregatestyles := [], map_attributes_bgcolor := none, map_attributes_buffer := none }

/-- Handler over the two-layer catalog. -/
def hAB : WMSHandler := { mapfactory := mfAB, allowedepsgcodes := ["epsg:4326"] }

/-- The two-layer catalog's store. -/
def storeAB : Store := [layerA, layerB]

/- ### C5 -/

/-- C5 counterexample input: transparent=false but no bgcolor key. -/
def c5P : WMSParams := { pBase with transparent := some "false" }

/-- C5 witness input: transparent=false with a supplied white background. -/
def c5Pw : WMSParams :=
  { pBase with transparent := some "false", bgcolor := some ⟨255, 255, 255, 255⟩ }

/-- C5 witness output map: white background, the rest untouched. -/
def c5M : MapnikMap :=
  { width := 256, height := 256, srs := "+init=epsg:4326",
    background := some ⟨255, 255, 255, 255⟩, buffer := none, mstyles := [],
    mlayers := [], extent := some (0, 0, 1, 1) }

/- ### C8 -/

/-- C8 failing input: layers=[layerA, layerB], query_layers=[layerB], where
layerA is queryable and layerB is not. -/
def c8P : WMSParams := { pBase with layers := ["layerA", "layerB"], query_layers := ["layerB"] }

/-- C8 query function: only map-layer index 0 (layerA's position) yields a
feature. -/
def c8qp : QueryFn := fun idx _ _ => if idx = 0 then [[("k", "v")]] else []

/-- C10 witness parameters: query layerA with an everywhere-empty query. -/
def c10P : WMSParams := { pBase with layers := ["layerA"], query_layers := ["layerA"] }

/- ### C7: the catalog's layer objects are never mutated by map building -/

/-- The store grew only past the end: every entry reachable before the call
is unchanged. -/
def storePres (σ σ' : Store) : Prop :=
  σ.length ≤ σ'.length ∧ ∀ i, i < σ.length → σ'.get? i = σ.get? i

/-- The per-request invariant: the original store is preserved and every
layer reference the map holds points past the original store (at a
freshly-allocated copy, never a catalog entry). -/
def c7inv (σ₀ : Store) (ms : MapnikMap × Store) : Prop :=
  storePres σ₀ ms.2 ∧ ∀ r ∈ ms.1.mlayers, σ₀.length ≤ r

/-- C7 witness input: one explicit concrete layer. -/
def c7P : WMSParams := { pBase with layers := ["layerA"] }

/-- C7 witness output map. -/
def c7M : MapnikMap :=
  { width := 256, height := 256, srs := "+init=epsg:4326",
    background := some transparentColor, buffer := none, mstyles := [("sA", 10)],
    mlayers := [2], extent := some (0, 0, 1, 1) }

/-- C7 witness output store: the two catalog entries untouched, the mutated
copy of layerA appended past them. -/
def c7σ2 : Store := [layerA, layerB, { layerA with styles := ["sA"] }]

/-! ### Theorems -/

/- ### Supporting lemmas for the processParameters theorems -/

/-- Sequential composition: processing a concatenated schema runs the first
part, then the second on the mutated params and accumulated finalparams. -/
theorem processParameters_append (xs ys : List (String × ParameterDefinition))
    (p f : List (String × Value)) :
    processParameters (xs ++ ys) p f =
      match processParameters xs p f with
      | .ok (f', p') => processParameters ys p' f'
      | .error e => .error e := by
  induction xs generalizing p f with
  | nil => simp [processParameters]
  | cons hd rest ih =>
    obtain ⟨name, d⟩ := hd
    simp only [List.cons_append, processParameters]
    cases h : processOneParam name d p f with
    | error e => rfl
    | ok fp => obtain ⟨f', p'⟩ := fp; exact ih p' f'

theorem alookup_aset_ne {α : Type} (l : List (String × α)) (n k : String) (v : α)
    (h : k ≠ n) : alookup (aset l n v) k = alookup l k := by
  induction l with
  | nil => simp [aset, alookup, Ne.symm h]
  | cons hd rest ih =>
    obtain ⟨k', v'⟩ := hd
    by_cases hk : k' = n
    · subst hk
      simp [aset, alookup, Ne.symm h]
    · simp only [aset, hk, if_false]
      by_cases hkk : k' = k
      · simp [alookup, hkk]
      · simp [alookup, hkk, ih]

/-- Step equation of `processOneParam` for an absent parameter. -/
theorem processOneParam_absent (name : String) (d : ParameterDefinition)
    (p f : List (String × Value)) (h : alookup p name = none) :
    processOneParam name d p f =
      (if d.mandatory then .error (.missingParameter name)
       else if vTruthy d.default then .ok (aset f name d.default, p)
       else .ok (f, p)) := by
  unfold processOneParam
  rw [h]

/-- Step equation of `processOneParam` for a present parameter value. -/
theorem processOneParam_present (name : String) (d : ParameterDefinition)
    (p f : List (String × Value)) (v : Value) (h : alookup p name = some v) :
    processOneParam name d p f =
      (match d.cast v with
       | .ogcError e => .error e
       | .exn => .error (.invalidParameterValue name)
       | .ok v' =>
         if avTruthy d.allowedvalues ∧ v' ∉ d.allowedvalues.getD [] then
           if ¬ d.fallback then .error (.illegalParameterValue name)
           else .ok (aset f name d.default, aset p name v')
         else .ok (aset f name v', aset p name v')) := by
  unfold processOneParam
  rw [h]

/-- Step equation of `processOneParam` when the present value casts cleanly. -/
theorem processOneParam_present_ok (name : String) (d : ParameterDefinition)
    (p f : List (String × Value)) (v v' : Value)
    (h : alookup p name = some v) (hc : d.cast v = .ok v') :
    processOneParam name d p f =
      (if avTruthy d.allowedvalues ∧ v' ∉ d.allowedvalues.getD [] then
        (if ¬ d.fallback then .error (.illegalParameterValue name)
         else .ok (aset f name d.default, aset p name v'))
       else .ok (aset f name v', aset p name v')) := by
  rw [processOneParam_present name d p f v h, hc]

/-- Step equation of `processOneParam` when the cast raises an OGCException. -/
theorem processOneParam_present_ogc (name : String) (d : ParameterDefinition)
    (p f : List (String × Value)) (v : Value) (e : Err)
    (h : alookup p name = some v) (hc : d.cast v = .ogcError e) :
    processOneParam name d p f = .error e := by
  rw [processOneParam_present name d p f v h, hc]

/-- Step equation of `processOneParam` when the cast raises any other
exception (wrapped as an invalid-value error). -/
theorem processOneParam_present_exn (name : String) (d : ParameterDefinition)
    (p f : List (String × Value)) (v : Value)
    (h : alookup p name = some v) (hc : d.cast v = .exn) :
    processOneParam name d p f = .error (.invalidParameterValue name) := by
  rw [processOneParam_present name d p f v h, hc]

/-- A single loop iteration never adds keys to the caller's mapping: the
write-back at line 106 only ever hits a key that was present. -/
theorem processOneParam_keys (name : String) (d : ParameterDefinition)
    (p f f' p' : List (String × Value)) (k : String)
    (h : processOneParam name d p f = .ok (f', p')) (hk : alookup p k = none) :
    alookup p' k = none := by
  cases halk : alookup p name with
  | none =>
    rw [processOneParam_absent name d p f halk] at h
    by_cases hm : d.mandatory
    · rw [if_pos hm] at h; exact Except.noConfusion h
    · rw [if_neg hm] at h
      by_cases hdft : vTruthy d.default
      · rw [if_pos hdft] at h
        simp only [Except.ok.injEq, Prod.mk.injEq] at h
        rw [← h.2]; exact hk
      · rw [if_neg hdft] at h
        simp only [Except.ok.injEq, Prod.mk.injEq] at h
        rw [← h.2]; exact hk
  | some v =>
    have hkn : k ≠ name := by
      intro he; rw [he, halk] at hk; exact Option.noConfusion hk
    cases hc : d.cast v with
    | ogcError e =>
      rw [processOneParam_present_ogc name d p f v e halk hc] at h
      exact Except.noConfusion h
    | exn =>
      rw [processOneParam_present_exn name d p f v halk hc] at h
      exact Except.noConfusion h
    | ok v' =>
      rw [processOneParam_present_ok name d p f v v' halk hc] at h
      by_cases hav : avTruthy d.allowedvalues ∧ v' ∉ d.allowedvalues.getD []
      · rw [if_pos hav] at h
        by_cases hfb : d.fallback
        · rw [if_neg (by simp [hfb])] at h
          simp only [Except.ok.injEq, Prod.mk.injEq] at h
          rw [← h.2, alookup_aset_ne p name k v' hkn]; exact hk
        · rw [if_pos (by simp [hfb])] at h
          exact Except.noConfusion h
      · rw [if_neg hav] at h
        simp only [Except.ok.injEq, Prod.mk.injEq] at h
        rw [← h.2, alookup_aset_ne p name k v' hkn]; exact hk

/-- `processParameters` never adds keys to the caller's mapping. -/
theorem processParameters_keys (xs : List (String × ParameterDefinition))
    (p f f' p' : List (String × Value)) (k : String)
    (h : processParameters xs p f = .ok (f', p')) (hk : alookup p k = none) :
    alookup p' k = none := by
  induction xs generalizing p f with
  | nil =>
    simp only [processParameters, Except.ok.injEq, Prod.mk.injEq] at h
    rw [← h.2]; exact hk
  | cons hd rest ih =>
    obtain ⟨name, d⟩ := hd
    simp only [processParameters] at h
    cases hstep : processOneParam name d p f with
    | error e => rw [hstep] at h; exact Except.noConfusion h
    | ok fp =>
      obtain ⟨f₁, p₁⟩ := fp
      rw [hstep] at h
      exact ih p₁ f₁ h (processOneParam_keys name d p f f₁ p₁ k hstep hk)

/-- C1 counterexample: the definition declares the allowed-value set `()`
with fallback=false; the supplied value "x" casts fine and is not a member
of the (empty) declared set, so by the claim validation must always fail —
but the code accepts the value unchanged, because the empty tuple is falsy
and the membership check at line 111 is skipped. -/
theorem c1_empty_allowedvalues_counterexample :
    processParametersTop [("p", c1def)] [("p", Value.vstr "x")] =
      .ok ([("p", Value.vstr "x")], [("p", Value.vstr "x")]) := by
  rfl

/-- C1 (amended: the declared allowed-value set is non-empty): for a
parameter definition at any schema position whose predecessors process
successfully, a present value that casts successfully but is not a member of
the non-empty declared allowed-value set yields the definition's declared
default under fallback=true (and never an error), and yields an
illegal-parameter error under fallback=false (never a silent substitution). -/
theorem c1_allowedvalues_fallback_thm
    (pre : List (String × ParameterDefinition)) (name : String)
    (d : ParameterDefinition) (p f f₁ p₁ : List (String × Value))
    (v v' : Value) (avs : List Value)
    (hpre : processParameters pre p f = .ok (f₁, p₁))
    (hv : alookup p₁ name = some v)
    (hc : d.cast v = .ok v')
    (hav : d.allowedvalues = some avs) (hne : avs ≠ []) (hmem : v' ∉ avs) :
    processParameters (pre ++ [(name, d)]) p f =
      (if d.fallback then .ok (aset f₁ name d.default, aset p₁ name v')
       else .error (.illegalParameterValue name)) := by
  rw [processParameters_append, hpre]
  have htr : avTruthy d.allowedvalues ∧ v' ∉ d.allowedvalues.getD [] := by
    rw [hav]; exact ⟨by simpa [avTruthy] using hne, by simpa using hmem⟩
  have hstep : processOneParam name d p₁ f₁ =
      (if d.fallback then .ok (aset f₁ name d.default, aset p₁ name v')
       else .error (.illegalParameterValue name)) := by
    rw [processOneParam_present_ok name d p₁ f₁ v v' hv hc]
    simp only [if_pos htr]
    by_cases hfb : d.fallback
    · rw [if_neg (by simp [hfb]), if_pos hfb]
    · rw [if_pos (by simp [hfb]), if_neg (by simp [hfb])]
  simp only [processParameters, hstep]
  by_cases hfb : d.fallback
  · simp [hfb, processParameters]
  · simp [hfb]

/-- C1 witness: concrete instantiation of `c1_allowedvalues_fallback_thm`
with the allowed set `("a")`, supplied value `"b"`, fallback=true. -/
theorem c1_allowedvalues_fallback_witness :
    processParameters
        [("p", { mandatory := false, cast := fun v => .ok v, default := Value.vstr "a",
                 allowedvalues := some [Value.vstr "a"], fallback := true })]
        [("p", Value.vstr "b")] [] =
      .ok ([("p", Value.vstr "a")], [("p", Value.vstr "b")]) := by
  have h := c1_allowedvalues_fallback_thm []
      "p"
      { mandatory := false, cast := fun v => .ok v, default := Value.vstr "a",
        allowedvalues := some [Value.vstr "a"], fallback := true }
      [("p", Value.vstr "b")] [] [] [("p", Value.vstr "b")]
      (Value.vstr "b") (Value.vstr "b") [Value.vstr "a"]
      (by rfl) (by rfl) (by rfl) (by rfl) (by decide) (by decide)
  simpa [aset] using h

/-- C2 counterexample: the input lacks the mandatory parameter "b", but the
parameter "a" is processed first and its cast raises, so the call fails with
the invalid-value error for "a", not with MissingParameter. -/
theorem c2_preempted_error_counterexample :
    processParametersTop [("a", c2badDef), ("b", c2mandDef)] [("a", Value.vstr "x")] =
      .error (.invalidParameterValue "a") := by
  rfl

/-- C2 (amended): with a mandatory parameter absent from the input,
`processParameters` always fails with some error; the error is the
missing-parameter error for that parameter whenever every schema entry
processed before it succeeds. -/
theorem c2_missing_mandatory_thm
    (pre post : List (String × ParameterDefinition)) (name : String)
    (d : ParameterDefinition) (p f : List (String × Value))
    (hmand : d.mandatory = true) (habs : alookup p name = none) :
    ∃ e, processParameters (pre ++ (name, d) :: post) p f = .error e ∧
      (∀ f₁ p₁, processParameters pre p f = .ok (f₁, p₁) → e = .missingParameter name) := by
  rw [processParameters_append]
  cases hpre : processParameters pre p f with
  | error e0 =>
    exact ⟨e0, rfl, fun f₁ p₁ hok => Except.noConfusion hok⟩
  | ok fp =>
    obtain ⟨f₁, p₁⟩ := fp
    have habs₁ : alookup p₁ name = none :=
      processParameters_keys pre p f f₁ p₁ name hpre habs
    refine ⟨.missingParameter name, ?_, fun _ _ _ => rfl⟩
    simp [processParameters, processOneParam, habs₁, hmand]

/-- C2 witness: concrete instantiation of `c2_missing_mandatory_thm` where
the predecessor parameter processes fine, so the result is the
missing-parameter error. -/
theorem c2_missing_mandatory_witness :
    ∃ e, processParameters [("a", c2mandDef), ("b", c2mandDef)]
        [("a", Value.vstr "x")] [] = .error e ∧
      (∀ f₁ p₁, processParameters [("a", c2mandDef)] [("a", Value.vstr "x")] [] = .ok (f₁, p₁) →
        e = .missingParameter "b") :=
  c2_missing_mandatory_thm [("a", c2mandDef)] [] "b" c2mandDef
    [("a", Value.vstr "x")] [] (by rfl) (by rfl)

/-- C6 counterexample: a successful call returns the caller's mapping with
the cast value written back — `params` went in as `[("w", "5")]` and comes
out as `[("w", 5)]`, so the input mapping is not left unchanged. -/
theorem c6_mutation_counterexample :
    processParametersTop [("w", c6def)] [("w", Value.vstr "5")] =
        .ok ([("w", Value.vint 5)], [("w", Value.vint 5)]) ∧
      ([("w", Value.vint 5)] : List (String × Value)) ≠ [("w", Value.vstr "5")] := by
  exact ⟨by rfl, by decide⟩

/-- C6 (amended): `processParameters` is a deterministic function of
(schema, input), but it is not free of effects on the caller's mapping: when
a declared parameter is present and its cast succeeds, the cast value is
written back into the mapping (line 106 of the source), and processing
continues on the mutated mapping `aset p₁ name v'`. -/
theorem c6_writeback_thm
    (pre rest : List (String × ParameterDefinition)) (name : String)
    (d : ParameterDefinition) (p f f₁ p₁ : List (String × Value)) (v v' : Value)
    (hpre : processParameters pre p f = .ok (f₁, p₁))
    (hv : alookup p₁ name = some v)
    (hc : d.cast v = .ok v') :
    processParameters (pre ++ (name, d) :: rest) p f =
      (if avTruthy d.allowedvalues ∧ v' ∉ d.allowedvalues.getD [] then
        (if ¬ d.fallback then .error (.illegalParameterValue name)
         else processParameters rest (aset p₁ name v') (aset f₁ name d.default))
       else processParameters rest (aset p₁ name v') (aset f₁ name v')) := by
  rw [processParameters_append, hpre]
  simp only [processParameters]
  rw [processOneParam_present_ok name d p₁ f₁ v v' hv hc]
  by_cases hav : avTruthy d.allowedvalues ∧ v' ∉ d.allowedvalues.getD []
  · simp only [if_pos hav]
    by_cases hfb : d.fallback
    · rw [if_neg (by simp [hfb]), if_neg (by simp [hfb])]
    · rw [if_pos (by simp [hfb]), if_pos (by simp [hfb])]
  · simp only [if_neg hav]

/-- C6 witness: concrete instantiation of `c6_writeback_thm` exhibiting the
write-back of the cast value into the caller's mapping. -/
theorem c6_writeback_witness :
    processParameters [("w", c6def)] [("w", Value.vstr "5")] [] =
      processParameters [] (aset [("w", Value.vstr "5")] "w" (Value.vint 5))
        (aset [] "w" (Value.vint 5)) := by
  have h := c6_writeback_thm [] [] "w" c6def [("w", Value.vstr "5")] [] []
      [("w", Value.vstr "5")] (Value.vstr "5") (Value.vint 5)
      (by rfl) (by rfl) (by rfl)
  simpa [c6def, avTruthy] using h

/- ### C9 -/

/-- C9: the CRS value's string form lowercases the namespace
(`str(CRS(ns, code)) = ns.lower() + ":" + str(code)` for every namespace and
integer code), `CRS("EPSG", c) == CRS("epsg", c)` holds for every code `c`
(equality is case-insensitive on the namespace), and concretely
`str(CRS("EPSG", 4326)) = "epsg:4326"`. -/
theorem c9_crs_roundtrip_thm :
    (∀ (ns : String) (code : Int), crsRepr (mkCRS ns code) = pyLower ns ++ ":" ++ toString code) ∧
    (∀ c : Int, crsEq (mkCRS "EPSG" c) (mkCRS "epsg" c) = true) ∧
    crsRepr (mkCRS "EPSG" 4326) = "epsg:4326" := by
  refine ⟨fun ns code => rfl, fun c => ?_, by rfl⟩
  have h : mkCRS "EPSG" c = mkCRS "epsg" c := by
    simp only [mkCRS]
    have hl : pyLower "EPSG" = pyLower "epsg" := by decide
    rw [hl]
  rw [h, crsEq]
  simp

/- ### C3 -/

/-- C3: `_buildMap` checks CRS membership first — a CRS outside the server's
allowed set fails with the unsupported-CRS error regardless of the bbox —
and only then the bounding box, failing with InvalidBBox on the minx axis
whenever minx ≥ maxx and on the miny axis whenever minx < maxx but
miny ≥ maxy; in particular minx = maxx or miny = maxy always fails (strict
inequality required), and any bbox with minx ≥ maxx or miny ≥ maxy yields an
InvalidBBox error. -/
theorem c3_crs_bbox_order_thm (h : WMSHandler) (p : WMSParams) (σ : Store) :
    (crsRepr p.crs ∉ h.allowedepsgcodes →
      buildMap h p σ = .error (.unsupportedCRS (crsRepr p.crs))) ∧
    (crsRepr p.crs ∈ h.allowedepsgcodes → p.bbox0 ≥ p.bbox2 →
      buildMap h p σ = .error (.invalidBBox "minx is greater than maxx")) ∧
    (crsRepr p.crs ∈ h.allowedepsgcodes → p.bbox0 < p.bbox2 → p.bbox1 ≥ p.bbox3 →
      buildMap h p σ = .error (.invalidBBox "miny is greater than maxy")) ∧
    (crsRepr p.crs ∈ h.allowedepsgcodes → p.bbox0 ≥ p.bbox2 ∨ p.bbox1 ≥ p.bbox3 →
      ∃ s, buildMap h p σ = .error (.invalidBBox s)) := by
  refine ⟨?_, ?_, ?_, ?_⟩
  · intro hcrs
    rw [buildMap, if_pos hcrs]
  · intro hcrs hb
    rw [buildMap, if_neg (fun hc => hc hcrs), if_pos hb]
  · intro hcrs hb1 hb2
    rw [buildMap, if_neg (fun hc => hc hcrs), if_neg (not_le.mpr hb1), if_pos hb2]
  · intro hcrs hb
    by_cases hb1 : p.bbox0 ≥ p.bbox2
    · exact ⟨"minx is greater than maxx", by rw [buildMap, if_neg (fun hc => hc hcrs), if_pos hb1]⟩
    · have hb2 : p.bbox1 ≥ p.bbox3 := hb.resolve_left hb1
      exact ⟨"miny is greater than maxy",
        by rw [buildMap, if_neg (fun hc => hc hcrs), if_neg hb1, if_pos hb2]⟩

/-- C3 witness: concrete applications of `c3_crs_bbox_order_thm` — an
unknown CRS fails with the CRS error even with a degenerate bbox, and over
the allowed CRS a degenerate bbox (minx = maxx) fails on the minx axis, and
miny > maxy fails on the miny axis. -/
theorem c3_crs_bbox_order_witness :
    buildMap { mapfactory := mfEmpty, allowedepsgcodes := [] } { pBase with bbox2 := 0 } [] =
        .error (.unsupportedCRS "epsg:4326") ∧
    buildMap hEmpty { pBase with bbox2 := 0 } [] =
        .error (.invalidBBox "minx is greater than maxx") ∧
    buildMap hEmpty { pBase with bbox3 := -1 } [] =
        .error (.invalidBBox "miny is greater than maxy") := by
  refine ⟨?_, ?_, ?_⟩
  · exact (c3_crs_bbox_order_thm { mapfactory := mfEmpty, allowedepsgcodes := [] }
      { pBase with bbox2 := 0 } []).1 (by decide)
  · exact (c3_crs_bbox_order_thm hEmpty { pBase with bbox2 := 0 } []).2.1 (by decide) (by decide)
  · exact (c3_crs_bbox_order_thm hEmpty { pBase with bbox3 := -1 } []).2.2.1
      (by decide) (by decide) (by decide)

/- ### Background preservation through the layer loops (for C5) -/

theorem mapAppendStyle_background (m : MapnikMap) (name : String) (st : StyleObj) :
    (mapAppendStyle m name st).background = m.background := by
  unfold mapAppendStyle
  cases alookup m.mstyles name <;> rfl

theorem regStylesLoose_background (mf : MapFactory) (ss : List String) (m : MapnikMap) :
    (regStylesLoose mf ss m).background = m.background := by
  induction ss generalizing m with
  | nil => rfl
  | cons s rest ih =>
    unfold regStylesLoose
    cases alookup mf.styles s with
    | some sobj => rw [ih, mapAppendStyle_background]
    | none => rw [ih]

theorem regStylesStrict_background (mf : MapFactory) (lname : String) (ss : List String)
    (m m₁ : MapnikMap) (h : regStylesStrict mf lname ss m = .ok m₁) :
    m₁.background = m.background := by
  induction ss generalizing m with
  | nil =>
    simp only [regStylesStrict, Except.ok.injEq] at h
    rw [← h]
  | cons s rest ih =>
    unfold regStylesStrict at h
    cases hs : alookup mf.styles s with
    | some sobj =>
      simp only [hs] at h
      rw [ih (mapAppendStyle m s sobj) h, mapAppendStyle_background]
    | none => simp only [hs] at h; exact Except.noConfusion h

theorem haitiStep_background (mf : MapFactory) (r : Nat) (ms ms' : MapnikMap × Store)
    (h : haitiStep mf r ms = .ok ms') : ms'.1.background = ms.1.background := by
  unfold haitiStep at h
  cases hca : copyLayerAlloc ms.2 r with
  | error e => simp only [hca] at h; exact Except.noConfusion h
  | ok pair =>
    obtain ⟨σ₁, nr⟩ := pair
    simp only [hca] at h
    cases hgl : getLayer σ₁ nr with
    | error e => simp only [hgl] at h; exact Except.noConfusion h
    | ok layer =>
      simp only [hgl] at h
      cases hmsty : layer.meta_style with
      | none =>
        simp only [hmsty, Except.ok.injEq] at h
        rw [← h]
      | some msty =>
        simp only [hmsty] at h
        cases hlk : alookup mf.meta_styles msty with
        | none => simp only [hlk] at h; exact Except.noConfusion h
        | some sobj =>
          simp only [hlk, Except.ok.injEq] at h
          rw [← h]
          exact mapAppendStyle_background ms.1 msty sobj

theorem buildHaiti_background (mf : MapFactory) (l : List Nat) (ms ms' : MapnikMap × Store)
    (h : buildHaiti mf l ms = .ok ms') : ms'.1.background = ms.1.background := by
  induction l generalizing ms with
  | nil =>
    simp only [buildHaiti, Except.ok.injEq] at h
    rw [← h]
  | cons r rest ih =>
    unfold buildHaiti at h
    cases hstep : haitiStep mf r ms with
    | error e => simp only [hstep] at h; exact Except.noConfusion h
    | ok ms₁ =>
      simp only [hstep] at h
      rw [ih ms₁ h, haitiStep_background mf r ms ms₁ hstep]

theorem allStep_background (mf : MapFactory) (r : Nat) (ms ms' : MapnikMap × Store)
    (h : allStep mf r ms = .ok ms') : ms'.1.background = ms.1.background := by
  unfold allStep at h
  cases hca : copyLayerAlloc ms.2 r with
  | error e => simp only [hca] at h; exact Except.noConfusion h
  | ok pair =>
    obtain ⟨σ₁, nr⟩ := pair
    simp only [hca] at h
    cases hgl : getLayer σ₁ nr with
    | error e => simp only [hgl] at h; exact Except.noConfusion h
    | ok layer =>
      simp only [hgl] at h
      cases hmsty : layer.meta_style with
      | some msty =>
        simp only [hmsty, Option.isSome_some, if_true, Except.ok.injEq] at h
        rw [← h]
      | none =>
        simp only [hmsty, Option.isSome_none, Bool.false_eq_true, if_false] at h
        cases hds : layer.wmsdefaultstyle with
        | none => simp only [hds] at h; exact Except.noConfusion h
        | some reqstyle =>
          simp only [hds] at h
          cases hgl₂ : getLayer
              (match alookup mf.aggregatestyles reqstyle with
               | some mems => appendStylesToLayer σ₁ nr mems
               | none => appendStyleToLayer σ₁ nr reqstyle) nr with
          | error e => simp only [hgl₂] at h; exact Except.noConfusion h
          | ok layer₂ =>
            simp only [hgl₂, Except.ok.injEq] at h
            rw [← h]
            exact regStylesLoose_background mf layer₂.styles ms.1

theorem buildAll_background (mf : MapFactory) (l : List Nat) (ms ms' : MapnikMap × Store)
    (h : buildAll mf l ms = .ok ms') : ms'.1.background = ms.1.background := by
  induction l generalizing ms with
  | nil =>
    simp only [buildAll, Except.ok.injEq] at h
    rw [← h]
  | cons r rest ih =>
    unfold buildAll at h
    cases hstep : allStep mf r ms with
    | error e => simp only [hstep] at h; exact Except.noConfusion h
    | ok ms₁ =>
      simp only [hstep] at h
      rw [ih ms₁ h, allStep_background mf r ms ms₁ hstep]

theorem explFinish_background (mf : MapFactory) (name : String) (m : MapnikMap)
    (σ : Store) (nr : Nat) (rq : String) (ms' : MapnikMap × Store)
    (h : explFinish mf name m σ nr rq = .ok ms') : ms'.1.background = m.background := by
  unfold explFinish at h
  cases hgl : getLayer
      (match alookup mf.aggregatestyles rq with
       | some mems => appendStylesToLayer σ nr mems
       | none => appendStyleToLayer σ nr rq) nr with
  | error e => simp only [hgl] at h; exact Except.noConfusion h
  | ok layer₂ =>
    simp only [hgl] at h
    cases hreg : regStylesStrict mf name layer₂.styles m with
    | error e => simp only [hreg] at h; exact Except.noConfusion h
    | ok m₁ =>
      simp only [hreg, Except.ok.injEq] at h
      rw [← h]
      exact regStylesStrict_background mf name layer₂.styles m m₁ hreg

theorem explStep_background (mf : MapFactory) (sp : List String) (i : Nat) (name : String)
    (ms ms' : MapnikMap × Store) (h : explStep mf sp i name ms = .ok ms') :
    ms'.1.background = ms.1.background := by
  unfold explStep at h
  cases hml : alookup mf.meta_layers name with
  | some mr =>
    simp only [hml] at h
    cases hca : copyLayerAlloc ms.2 mr with
    | error e => simp only [hca] at h; exact Except.noConfusion h
    | ok pair =>
      obtain ⟨σ₁, nr⟩ := pair
      simp only [hca] at h
      cases hlk : alookup mf.meta_styles name with
      | none => simp only [hlk] at h; exact Except.noConfusion h
      | some sobj =>
        simp only [hlk, Except.ok.injEq] at h
        rw [← h]
        exact mapAppendStyle_background ms.1 name sobj
  | none =>
    simp only [hml] at h
    cases hcl : alookup mf.layers name with
    | none => simp only [hcl] at h; exact Except.noConfusion h
    | some cr =>
      simp only [hcl] at h
      cases hca : copyLayerAlloc ms.2 cr with
      | error e => simp only [hca] at h; exact Except.noConfusion h
      | ok pair =>
        obtain ⟨σ₁, nr⟩ := pair
        simp only [hca] at h
        cases hgl : getLayer σ₁ nr with
        | error e => simp only [hgl] at h; exact Except.noConfusion h
        | ok layer =>
          simp only [hgl] at h
          by_cases hrq : (sp.get? i).getD "" ≠ ""
          · rw [if_pos hrq] at h
            cases hexs : layer.wmsextrastyles with
            | none => simp only [hexs] at h; exact Except.noConfusion h
            | some exs =>
              simp only [hexs] at h
              by_cases hmem : (sp.get? i).getD "" ∈ exs
              · rw [if_pos hmem] at h
                exact explFinish_background mf name ms.1 σ₁ nr _ ms' h
              · rw [if_neg hmem] at h; exact Except.noConfusion h
          · rw [if_neg hrq] at h
            cases hds : layer.wmsdefaultstyle with
            | none => simp only [hds] at h; exact Except.noConfusion h
            | some ds =>
              simp only [hds] at h
              exact explFinish_background mf name ms.1 σ₁ nr ds ms' h

theorem buildExpl_background (mf : MapFactory) (sp : List String) (i : Nat)
    (names : List String) (ms ms' : MapnikMap × Store)
    (h : buildExpl mf sp i names ms = .ok ms') : ms'.1.background = ms.1.background := by
  induction names generalizing i ms with
  | nil =>
    simp only [buildExpl, Except.ok.injEq] at h
    rw [← h]
  | cons name rest ih =>
    unfold buildExpl at h
    cases hstep : explStep mf sp i name ms with
    | error e => simp only [hstep] at h; exact Except.noConfusion h
    | ok ms₁ =>
      simp only [hstep] at h
      rw [ih (i + 1) ms₁ h, explStep_background mf sp i name ms ms₁ hstep]

theorem buildLayers_background (mf : MapFactory) (p : WMSParams) (ms ms' : MapnikMap × Store)
    (h : buildLayers mf p ms = .ok ms') : ms'.1.background = ms.1.background := by
  unfold buildLayers at h
  cases hl : p.layers with
  | nil =>
    simp only [hl] at h
    exact buildExpl_background mf p.styles 0 p.layers ms ms' (by rw [hl]; exact h)
  | cons hd tl =>
    simp only [hl] at h
    by_cases hh : hd ∈ haitiNames
    · rw [if_pos hh] at h
      exact buildHaiti_background mf mf.ordered_layers ms ms' h
    · rw [if_neg hh] at h
      by_cases ha : hd = "__all__"
      · rw [if_pos ha] at h
        exact buildAll_background mf mf.ordered_layers ms ms' h
      · rw [if_neg ha] at h
        exact buildExpl_background mf p.styles 0 p.layers ms ms' (by rw [hl]; exact h)

theorem resolveBuffer_background (h : WMSHandler) (p : WMSParams) (m : MapnikMap) :
    (resolveBuffer h p m).background = m.background := by
  unfold resolveBuffer
  cases p.buffer_size with
  | some b => by_cases hb : b ≠ 0 <;> simp [hb]
  | none =>
    cases h.mapfactory.map_attributes_buffer with
    | some b => by_cases hb : b ≠ 0 <;> simp [hb]
    | none => rfl

/-- C5 counterexample: with `transparent=false` and no background color
supplied, the claim says the background is fully transparent, but line 379
evaluates `params['bgcolor']`, which raises KeyError — the request fails
instead of producing a transparently-backed map. -/
theorem c5_bgcolor_keyerror_counterexample :
    buildMap hEmpty c5P [] = .error (.keyError "bgcolor") := by
  rfl

/-- C5 (amended): background resolution in `_buildMap` — if `transparent` is
one of FALSE/False/false and a background color was supplied, that color
becomes the map background; if `transparent` is absent and the catalog
declares a default background, that default is used; in every other case the
background is fully transparent, EXCEPT that `transparent` in the FALSE
family with no supplied background color raises KeyError on the `bgcolor`
access (the request errors instead of getting a transparent background). -/
theorem c5_background_resolution_thm (h : WMSHandler) (p : WMSParams) (σ : Store) :
    (∀ m σ₂, buildMap h p σ = .ok (m, σ₂) →
      ((p.transparent.isSome ∧ p.transparent.getD "" ∈ falseStrings) →
        ∃ c, p.bgcolor = some c ∧ m.background = some c) ∧
      (p.transparent = none → h.mapfactory.map_attributes_bgcolor.isSome →
        m.background = h.mapfactory.map_attributes_bgcolor) ∧
      (¬(p.transparent.isSome ∧ p.transparent.getD "" ∈ falseStrings) →
        ¬(p.transparent = none ∧ h.mapfactory.map_attributes_bgcolor.isSome) →
        m.background = some transparentColor)) ∧
    ((p.transparent.isSome ∧ p.transparent.getD "" ∈ falseStrings) → p.bgcolor = none →
      crsRepr p.crs ∈ h.allowedepsgcodes → p.bbox0 < p.bbox2 → p.bbox1 < p.bbox3 →
      buildMap h p σ = .error (.keyError "bgcolor")) := by
  constructor
  · intro m σ₂ hok
    unfold buildMap at hok
    by_cases hcrs : crsRepr p.crs ∉ h.allowedepsgcodes
    · rw [if_pos hcrs] at hok; exact Except.noConfusion hok
    rw [if_neg hcrs] at hok
    by_cases hb1 : p.bbox0 ≥ p.bbox2
    · rw [if_pos hb1] at hok; exact Except.noConfusion hok
    rw [if_neg hb1] at hok
    by_cases hb2 : p.bbox1 ≥ p.bbox3
    · rw [if_pos hb2] at hok; exact Except.noConfusion hok
    rw [if_neg hb2] at hok
    cases hbg : resolveBackground h p (initMap p) with
    | error e => simp only [hbg] at hok; exact Except.noConfusion hok
    | ok m₁ =>
      simp only [hbg] at hok
      cases hbl : buildLayers h.mapfactory p (resolveBuffer h p m₁, σ) with
      | error e => simp only [hbl] at hok; exact Except.noConfusion hok
      | ok ms₃ =>
        obtain ⟨m₃, σ₃⟩ := ms₃
        simp only [hbl, Except.ok.injEq, Prod.mk.injEq] at hok
        have hmb : m.background = m₁.background := by
          rw [← hok.1]
          have hpres := buildLayers_background h.mapfactory p
            (resolveBuffer h p m₁, σ) (m₃, σ₃) hbl
          have hzz : (zoomToBox p m₃).background = m₃.background := rfl
          rw [hzz, hpres]
          exact resolveBuffer_background h p m₁
        refine ⟨?_, ?_, ?_⟩
        · intro hcond
          unfold resolveBackground at hbg
          rw [if_pos hcond] at hbg
          cases hbgc : p.bgcolor with
          | none => rw [hbgc] at hbg; exact Except.noConfusion hbg
          | some c =>
            rw [hbgc] at hbg
            simp only [Except.ok.injEq] at hbg
            exact ⟨c, rfl, by rw [hmb, ← hbg]⟩
        · intro ht hattr
          have hnc1 : ¬(p.transparent.isSome ∧ p.transparent.getD "" ∈ falseStrings) := by
            simp [ht, falseStrings]
          unfold resolveBackground at hbg
          rw [if_neg hnc1, if_pos ⟨by simp [ht], hattr⟩] at hbg
          simp only [Except.ok.injEq] at hbg
          rw [hmb, ← hbg]
        · intro hnc1 hnc2
          unfold resolveBackground at hbg
          rw [if_neg hnc1] at hbg
          have hnc2' : ¬(p.transparent.isNone = true ∧
              h.mapfactory.map_attributes_bgcolor.isSome = true) := by
            intro ⟨hn, hs⟩
            exact hnc2 ⟨Option.isNone_iff_eq_none.mp hn, hs⟩
          rw [if_neg hnc2'] at hbg
          simp only [Except.ok.injEq] at hbg
          rw [hmb, ← hbg]
  · intro hcond hbgnone hcrs hb1 hb2
    have hbg : resolveBackground h p (initMap p) = .error (.keyError "bgcolor") := by
      unfold resolveBackground
      rw [if_pos hcond, hbgnone]
    unfold buildMap
    rw [if_neg (fun hc => hc hcrs), if_neg (not_le.mpr hb1), if_neg (not_le.mpr hb2)]
    simp only [hbg]

/-- C5 witness: concrete application of `c5_background_resolution_thm` — the
supplied background color ends up as the built map's background. -/
theorem c5_background_resolution_witness :
    ∃ c, c5Pw.bgcolor = some c ∧ c5M.background = some c :=
  ((c5_background_resolution_thm hEmpty c5Pw []).1 c5M [] (by rfl)).1 (by decide)

/- ### C4 -/

theorem get?_append_length {α : Type} (l : List α) (a : α) :
    (l ++ [a]).get? l.length = some a := by
  induction l with
  | nil => rfl
  | cons hd tl ih => exact ih

/-- C4: in the explicit-layer-list mode, a layer name matching neither a
meta-layer nor a concrete catalog layer fails with LayerNotDefined; a
non-empty requested style (by positional index into the parallel styles
list) that is not among the matched layer's allowed extra styles fails with
StyleNotDefined; an out-of-range or empty styles position resolves to the
layer's default style (the iteration continues exactly as `explFinish` with
the default style); and under explicit mode `_buildMap` runs precisely this
loop. -/
theorem c4_layer_style_resolution_thm (mf : MapFactory) (sp : List String) (i : Nat)
    (name : String) (m : MapnikMap) (σ : Store) :
    (alookup mf.meta_layers name = none → alookup mf.layers name = none →
      explStep mf sp i name (m, σ) = .error (.layerNotDefined name)) ∧
    (∀ cr obj s exs, alookup mf.meta_layers name = none → alookup mf.layers name = some cr →
      σ.get? cr = some obj → sp.get? i = some s → s ≠ "" → obj.wmsextrastyles = some exs →
      s ∉ exs → explStep mf sp i name (m, σ) = .error (.styleNotDefined s name)) ∧
    (∀ cr obj ds, alookup mf.meta_layers name = none → alookup mf.layers name = some cr →
      σ.get? cr = some obj → (sp.get? i).getD "" = "" → obj.wmsdefaultstyle = some ds →
      explStep mf sp i name (m, σ) =
        explFinish mf name m (σ ++ [copy_layer obj]) σ.length ds) ∧
    (∀ (h : WMSHandler) (p : WMSParams) (σ₀ : Store) (m₁ : MapnikMap),
      crsRepr p.crs ∈ h.allowedepsgcodes → p.bbox0 < p.bbox2 → p.bbox1 < p.bbox3 →
      resolveBackground h p (initMap p) = .ok m₁ →
      (∀ hd, p.layers.head? = some hd → hd ∉ haitiNames ∧ hd ≠ "__all__") →
      buildMap h p σ₀ =
        (match buildExpl h.mapfactory p.styles 0 p.layers (resolveBuffer h p m₁, σ₀) with
         | .error e => .error e
         | .ok (m₃, σ₃) => .ok (zoomToBox p m₃, σ₃))) := by
  refine ⟨?_, ?_, ?_, ?_⟩
  · intro h1 h2
    simp only [explStep, h1, h2]
  · intro cr obj s exs h1 h2 hobj hs hsne hexs hmem
    have hca : copyLayerAlloc σ cr = .ok (σ ++ [copy_layer obj], σ.length) := by
      unfold copyLayerAlloc; rw [hobj]
    have hgl : getLayer (σ ++ [copy_layer obj]) σ.length = .ok (copy_layer obj) := by
      unfold getLayer; rw [get?_append_length]
    simp only [explStep, h1, h2, hca, hgl, hs, Option.getD_some]
    rw [if_pos hsne]
    have hexs' : (copy_layer obj).wmsextrastyles = some exs := by
      rw [copy_layer]; exact hexs
    simp only [hexs']
    rw [if_neg hmem]
  · intro cr obj ds h1 h2 hobj hempty hds
    have hca : copyLayerAlloc σ cr = .ok (σ ++ [copy_layer obj], σ.length) := by
      unfold copyLayerAlloc; rw [hobj]
    have hgl : getLayer (σ ++ [copy_layer obj]) σ.length = .ok (copy_layer obj) := by
      unfold getLayer; rw [get?_append_length]
    simp only [explStep, h1, h2, hca, hgl]
    rw [if_neg (by rw [hempty]; exact fun hh => hh rfl)]
    have hds' : (copy_layer obj).wmsdefaultstyle = some ds := by
      rw [copy_layer]; exact hds
    simp only [hds']
  · intro h p σ₀ m₁ hcrs hb1 hb2 hbg hmode
    unfold buildMap
    rw [if_neg (fun hc => hc hcrs), if_neg (not_le.mpr hb1), if_neg (not_le.mpr hb2)]
    simp only [hbg]
    unfold buildLayers
    cases hl : p.layers with
    | nil => simp only [hl]
    | cons hd tl =>
      obtain ⟨hn1, hn2⟩ := hmode hd (by rw [hl]; rfl)
      simp only [hl]
      rw [if_neg hn1, if_neg hn2]

/-- C4 witness: concrete applications of `c4_layer_style_resolution_thm` —
an unknown layer name fails with LayerNotDefined, an extra style not allowed
for layerA fails with StyleNotDefined, and an empty styles list resolves
layerA to its default style "sA". -/
theorem c4_layer_style_resolution_witness :
    explStep mfAB [] 0 "nosuch" (initMap pBase, storeAB) =
        .error (.layerNotDefined "nosuch") ∧
    explStep mfAB ["badstyle"] 0 "layerA" (initMap pBase, storeAB) =
        .error (.styleNotDefined "badstyle" "layerA") ∧
    explStep mfAB [] 0 "layerA" (initMap pBase, storeAB) =
        explFinish mfAB "layerA" (initMap pBase) (storeAB ++ [copy_layer layerA])
          storeAB.length "sA" := by
  refine ⟨?_, ?_, ?_⟩
  · exact (c4_layer_style_resolution_thm mfAB [] 0 "nosuch" (initMap pBase) storeAB).1
      (by rfl) (by rfl)
  · exact (c4_layer_style_resolution_thm mfAB ["badstyle"] 0 "layerA"
      (initMap pBase) storeAB).2.1 0 layerA "badstyle" []
      (by rfl) (by rfl) (by rfl) (by rfl) (by decide) (by rfl) (by decide)
  · exact (c4_layer_style_resolution_thm mfAB [] 0 "layerA"
      (initMap pBase) storeAB).2.2.1 0 layerA "sA"
      (by rfl) (by rfl) (by rfl) (by rfl) (by rfl)

/-- C8, evaluation at the failing input: `query_layers=["layerB"]` with
`layers=["layerA","layerB"]` — layerB is NOT queryable, so per the claim the
request must fail with LayerNotQueryable, and only layerB could be queried.
Instead the code indexes `m.layers` by layerB's position inside
`query_layers` (index 0), checks the queryability of and point-queries
layerA, and succeeds with layerA's features — the positional-index defect
its own TODO comment (lines 341-343) flags. -/
theorem c8_positional_query_divergence :
    GetFeatureInfo hAB c8P storeAB c8qp =
      .ok { content_type := "text/plain", content := "\n[layerA]\nk=v\n" } := by
  rfl

/- ### C10 -/

/-- When every point query is empty, the `__all__` feature-info loop leaves
the writer untouched. -/
theorem fiAll_no_features (σ : Store) (qp : QueryFn) (px py : Int)
    (hq : ∀ idx, qp idx px py = []) :
    ∀ (n : Nat) (l : List Nat) (ow ow' : Option FIWriter),
      fiAll σ qp px py n l ow = .ok ow' → ow' = ow := by
  intro n l
  induction l generalizing n with
  | nil =>
    intro ow ow' h
    simp only [fiAll, Except.ok.injEq] at h
    exact h.symm
  | cons r rest ih =>
    intro ow ow' h
    unfold fiAll at h
    cases hgl : getLayer σ r with
    | error e => simp only [hgl] at h; exact Except.noConfusion h
    | ok layer =>
      simp only [hgl, hq n, ne_eq, not_true_eq_false, if_false] at h
      exact ih (n + 1) ow ow' h

/-- When every point query is empty, the explicit query-layers loop either
fails or leaves the writer untouched. -/
theorem fiExpl_no_features (σ : Store) (qp : QueryFn) (px py : Int)
    (lp : List String) (ml : List Nat)
    (hq : ∀ idx, qp idx px py = []) :
    ∀ (n : Nat) (l : List String) (ow ow' : Option FIWriter),
      fiExpl σ qp px py lp ml n l ow = .ok ow' → ow' = ow := by
  intro n l
  induction l generalizing n with
  | nil =>
    intro ow ow' h
    simp only [fiExpl, Except.ok.injEq] at h
    exact h.symm
  | cons qname rest ih =>
    intro ow ow' h
    unfold fiExpl at h
    by_cases hmem : qname ∈ lp
    · rw [if_pos hmem] at h
      cases hg : ml.get? n with
      | none => simp only [hg] at h; exact Except.noConfusion h
      | some r =>
        simp only [hg] at h
        cases hgl : getLayer σ r with
        | error e => simp only [hgl] at h; exact Except.noConfusion h
        | ok layer =>
          simp only [hgl] at h
          by_cases hqr : layer.queryable
          · simp only [hqr, if_true, hq n, ne_eq, not_true_eq_false, if_false] at h
            exact ih (n + 1) ow ow' h
          · simp only [hqr, Bool.false_eq_true, if_false] at h
            exact Except.noConfusion h
    · rw [if_neg hmem] at h
      exact Except.noConfusion h

/-- Shared tail of the C10 proof: from the final `str(writer)` step, read
off the response's content type and empty body. -/
theorem c10aux (fmt : String) (resp : Response)
    (hok : (match fiUse (writerInit fmt) with
            | .error e => (.error e : Except Err Response)
            | .ok w => .ok { content_type := fmt, content := fiStr w }) = .ok resp) :
    resp.content_type = fmt ∧
    (fmt = "text/plain" → resp.content = "") ∧
    (fmt = "text/xml" → resp.content = fiStr (FIWriter.xml [])) := by
  by_cases h1 : fmt = "text/plain"
  · have hw : writerInit fmt = some (.text "") := by rw [writerInit, if_pos h1]
    rw [hw] at hok
    simp only [fiUse, Except.ok.injEq] at hok
    rw [← hok]
    exact ⟨rfl, fun _ => rfl, fun hx => absurd (h1.symm.trans hx) (by decide)⟩
  · by_cases h2 : fmt = "text/xml"
    · have hw : writerInit fmt = some (.xml []) := by rw [writerInit, if_neg h1, if_pos h2]
      rw [hw] at hok
      simp only [fiUse, Except.ok.injEq] at hok
      rw [← hok]
      exact ⟨rfl, fun hx => absurd (h2.symm.trans hx) (by decide), fun _ => rfl⟩
    · have hw : writerInit fmt = none := by rw [writerInit, if_neg h1, if_neg h2]
      rw [hw] at hok
      simp only [fiUse] at hok
      exact Except.noConfusion hok

/-- C10: when GetFeatureInfo succeeds and no queried layer yields any
feature, the Response carries the requested `info_format` as content type,
and its body is the empty document for that format: the empty string for
text/plain, and for text/xml the serialization of a `<resultset>` root with
no child elements (no `<layer>` was ever appended). -/
theorem c10_empty_featureinfo_thm (h : WMSHandler) (p : WMSParams) (σ : Store)
    (qp : QueryFn) (resp : Response)
    (hq : ∀ idx, qp idx p.pix_i p.pix_j = [])
    (hok : GetFeatureInfo h p σ qp = .ok resp) :
    resp.content_type = p.info_format ∧
    (p.info_format = "text/plain" → resp.content = "") ∧
    (p.info_format = "text/xml" → resp.content = fiStr (FIWriter.xml [])) := by
  unfold GetFeatureInfo at hok
  cases hbm : buildMap h p σ with
  | error e => simp only [hbm] at hok; exact Except.noConfusion hok
  | ok msp =>
    obtain ⟨m, σ'⟩ := msp
    simp only [hbm] at hok
    by_cases hql : p.query_layers ≠ [] ∧ p.query_layers.head? = some "__all__"
    · rw [if_pos hql] at hok
      cases hfa : fiAll σ' qp p.pix_i p.pix_j 0 m.mlayers (writerInit p.info_format) with
      | error e => simp only [hfa] at hok; exact Except.noConfusion hok
      | ok ow' =>
        simp only [hfa] at hok
        have how : ow' = writerInit p.info_format :=
          fiAll_no_features σ' qp p.pix_i p.pix_j hq 0 m.mlayers _ ow' hfa
        rw [how] at hok
        exact c10aux p.info_format resp hok
    · rw [if_neg hql] at hok
      cases hfe : fiExpl σ' qp p.pix_i p.pix_j p.layers m.mlayers 0 p.query_layers
          (writerInit p.info_format) with
      | error e => simp only [hfe] at hok; exact Except.noConfusion hok
      | ok ow' =>
        simp only [hfe] at hok
        have how : ow' = writerInit p.info_format :=
          fiExpl_no_features σ' qp p.pix_i p.pix_j p.layers m.mlayers hq 0
            p.query_layers _ ow' hfe
        rw [how] at hok
        exact c10aux p.info_format resp hok

/-- C10 witness: concrete application of `c10_empty_featureinfo_thm` to a
successful text/plain GetFeatureInfo whose query returns no features — the
body is the empty string and the content type is the requested format. -/
theorem c10_empty_featureinfo_witness :
    ({ content_type := "text/plain", content := "" } : Response).content_type =
        c10P.info_format ∧
      (c10P.info_format = "text/plain" →
        ({ content_type := "text/plain", content := "" } : Response).content = "") ∧
      (c10P.info_format = "text/xml" →
        ({ content_type := "text/plain", content := "" } : Response).content =
          fiStr (FIWriter.xml [])) :=
  c10_empty_featureinfo_thm hAB c10P storeAB (fun _ _ _ => [])
    { content_type := "text/plain", content := "" } (fun _ => rfl) (by rfl)

theorem storePres_refl (σ : Store) : storePres σ σ :=
  ⟨Nat.le_refl _, fun _ _ => rfl⟩

theorem storePres_trans {a b c : Store} (h1 : storePres a b) (h2 : storePres b c) :
    storePres a c :=
  ⟨Nat.le_trans h1.1 h2.1, fun i hi => (h2.2 i (Nat.lt_of_lt_of_le hi h1.1)).trans (h1.2 i hi)⟩

theorem storePres_concat (σ : Store) (l : List LayerObj) : storePres σ (σ ++ l) := by
  refine ⟨by simp, fun i hi => ?_⟩
  exact List.get?_append hi

theorem appendStyleToLayer_pres (σ₀ σ : Store) (r : Nat) (s : String)
    (hsp : storePres σ₀ σ) (hr : σ₀.length ≤ r) :
    storePres σ₀ (appendStyleToLayer σ r s) := by
  unfold appendStyleToLayer
  cases hg : σ.get? r with
  | none => exact hsp
  | some obj =>
    refine ⟨by rw [List.length_set]; exact hsp.1, fun i hi => ?_⟩
    have hne : r ≠ i := fun he => Nat.lt_irrefl r (Nat.lt_of_lt_of_le (he ▸ hi) hr)
    rw [List.get?_set_ne _ σ hne]
    exact hsp.2 i hi

theorem appendStylesToLayer_pres (σ₀ : Store) (ss : List String) (σ : Store) (r : Nat)
    (hsp : storePres σ₀ σ) (hr : σ₀.length ≤ r) :
    storePres σ₀ (appendStylesToLayer σ r ss) := by
  induction ss generalizing σ with
  | nil => exact hsp
  | cons s rest ih =>
    exact ih (appendStyleToLayer σ r s) (appendStyleToLayer_pres σ₀ σ r s hsp hr)

/-- What a successful `copy_layer` allocation did to the store. -/
theorem copyLayerAlloc_spec (σ : Store) (r : Nat) (σ₁ : Store) (nr : Nat)
    (h : copyLayerAlloc σ r = .ok (σ₁, nr)) :
    storePres σ σ₁ ∧ nr = σ.length := by
  unfold copyLayerAlloc at h
  cases hg : σ.get? r with
  | none => rw [hg] at h; exact Except.noConfusion h
  | some obj =>
    rw [hg] at h
    simp only [Except.ok.injEq, Prod.mk.injEq] at h
    exact ⟨h.1 ▸ storePres_concat σ [copy_layer obj], h.2.symm⟩

theorem mapAppendStyle_mlayers (m : MapnikMap) (name : String) (st : StyleObj) :
    (mapAppendStyle m name st).mlayers = m.mlayers := by
  unfold mapAppendStyle
  cases alookup m.mstyles name <;> rfl

theorem regStylesLoose_mlayers (mf : MapFactory) (ss : List String) (m : MapnikMap) :
    (regStylesLoose mf ss m).mlayers = m.mlayers := by
  induction ss generalizing m with
  | nil => rfl
  | cons s rest ih =>
    unfold regStylesLoose
    cases alookup mf.styles s with
    | some sobj => rw [ih, mapAppendStyle_mlayers]
    | none => rw [ih]

theorem regStylesStrict_mlayers (mf : MapFactory) (lname : String) (ss : List String)
    (m m₁ : MapnikMap) (h : regStylesStrict mf lname ss m = .ok m₁) :
    m₁.mlayers = m.mlayers := by
  induction ss generalizing m with
  | nil =>
    simp only [regStylesStrict, Except.ok.injEq] at h
    rw [← h]
  | cons s rest ih =>
    unfold regStylesStrict at h
    cases hs : alookup mf.styles s with
    | some sobj =>
      simp only [hs] at h
      rw [ih (mapAppendStyle m s sobj) h, mapAppendStyle_mlayers]
    | none => simp only [hs] at h; exact Except.noConfusion h

theorem haitiStep_inv (mf : MapFactory) (r : Nat) (σ₀ : Store) (ms ms' : MapnikMap × Store)
    (h : haitiStep mf r ms = .ok ms') (hinv : c7inv σ₀ ms) : c7inv σ₀ ms' := by
  unfold haitiStep at h
  cases hca : copyLayerAlloc ms.2 r with
  | error e => simp only [hca] at h; exact Except.noConfusion h
  | ok pair =>
    obtain ⟨σ₁, nr⟩ := pair
    obtain ⟨hsp₁, hnr⟩ := copyLayerAlloc_spec ms.2 r σ₁ nr hca
    have hsp₀ : storePres σ₀ σ₁ := storePres_trans hinv.1 hsp₁
    have hnr₀ : σ₀.length ≤ nr := hnr ▸ hinv.1.1
    simp only [hca] at h
    cases hgl : getLayer σ₁ nr with
    | error e => simp only [hgl] at h; exact Except.noConfusion h
    | ok layer =>
      simp only [hgl] at h
      cases hmsty : layer.meta_style with
      | none =>
        simp only [hmsty, Except.ok.injEq] at h
        rw [← h]
        exact ⟨hsp₀, hinv.2⟩
      | some msty =>
        simp only [hmsty] at h
        cases hlk : alookup mf.meta_styles msty with
        | none => simp only [hlk] at h; exact Except.noConfusion h
        | some sobj =>
          simp only [hlk, Except.ok.injEq] at h
          rw [← h]
          refine ⟨appendStyleToLayer_pres σ₀ σ₁ nr msty hsp₀ hnr₀, fun q hq => ?_⟩
          simp only [mapAppendStyle_mlayers, List.mem_append, List.mem_singleton] at hq
          cases hq with
          | inl hq => exact hinv.2 q hq
          | inr hq => exact hq ▸ hnr₀

theorem buildHaiti_inv (mf : MapFactory) (l : List Nat) (σ₀ : Store)
    (ms ms' : MapnikMap × Store) (h : buildHaiti mf l ms = .ok ms')
    (hinv : c7inv σ₀ ms) : c7inv σ₀ ms' := by
  induction l generalizing ms with
  | nil =>
    simp only [buildHaiti, Except.ok.injEq] at h
    rw [← h]; exact hinv
  | cons r rest ih =>
    unfold buildHaiti at h
    cases hstep : haitiStep mf r ms with
    | error e => simp only [hstep] at h; exact Except.noConfusion h
    | ok ms₁ =>
      simp only [hstep] at h
      exact ih ms₁ h (haitiStep_inv mf r σ₀ ms ms₁ hstep hinv)

theorem allStep_inv (mf : MapFactory) (r : Nat) (σ₀ : Store) (ms ms' : MapnikMap × Store)
    (h : allStep mf r ms = .ok ms') (hinv : c7inv σ₀ ms) : c7inv σ₀ ms' := by
  unfold allStep at h
  cases hca : copyLayerAlloc ms.2 r with
  | error e => simp only [hca] at h; exact Except.noConfusion h
  | ok pair =>
    obtain ⟨σ₁, nr⟩ := pair
    obtain ⟨hsp₁, hnr⟩ := copyLayerAlloc_spec ms.2 r σ₁ nr hca
    have hsp₀ : storePres σ₀ σ₁ := storePres_trans hinv.1 hsp₁
    have hnr₀ : σ₀.length ≤ nr := hnr ▸ hinv.1.1
    simp only [hca] at h
    cases hgl : getLayer σ₁ nr with
    | error e => simp only [hgl] at h; exact Except.noConfusion h
    | ok layer =>
      simp only [hgl] at h
      cases hmsty : layer.meta_style with
      | some msty =>
        simp only [hmsty, Option.isSome_some, if_true, Except.ok.injEq] at h
        rw [← h]
        exact ⟨hsp₀, hinv.2⟩
      | none =>
        simp only [hmsty, Option.isSome_none, Bool.false_eq_true, if_false] at h
        cases hds : layer.wmsdefaultstyle with
        | none => simp only [hds] at h; exact Except.noConfusion h
        | some reqstyle =>
          simp only [hds] at h
          have hsp₂ : storePres σ₀
              (match alookup mf.aggregatestyles reqstyle with
               | some mems => appendStylesToLayer σ₁ nr mems
               | none => appendStyleToLayer σ₁ nr reqstyle) := by
            cases alookup mf.aggregatestyles reqstyle with
            | some mems => exact appendStylesToLayer_pres σ₀ mems σ₁ nr hsp₀ hnr₀
            | none => exact appendStyleToLayer_pres σ₀ σ₁ nr reqstyle hsp₀ hnr₀
          cases hgl₂ : getLayer
              (match alookup mf.aggregatestyles reqstyle with
               | some mems => appendStylesToLayer σ₁ nr mems
               | none => appendStyleToLayer σ₁ nr reqstyle) nr with
          | error e => simp only [hgl₂] at h; exact Except.noConfusion h
          | ok layer₂ =>
            simp only [hgl₂, Except.ok.injEq] at h
            rw [← h]
            refine ⟨hsp₂, fun q hq => ?_⟩
            simp only [regStylesLoose_mlayers, List.mem_append, List.mem_singleton] at hq
            cases hq with
            | inl hq => exact hinv.2 q hq
            | inr hq => exact hq ▸ hnr₀

theorem buildAll_inv (mf : MapFactory) (l : List Nat) (σ₀ : Store)
    (ms ms' : MapnikMap × Store) (h : buildAll mf l ms = .ok ms')
    (hinv : c7inv σ₀ ms) : c7inv σ₀ ms' := by
  induction l generalizing ms with
  | nil =>
    simp only [buildAll, Except.ok.injEq] at h
    rw [← h]; exact hinv
  | cons r rest ih =>
    unfold buildAll at h
    cases hstep : allStep mf r ms with
    | error e => simp only [hstep] at h; exact Except.noConfusion h
    | ok ms₁ =>
      simp only [hstep] at h
      exact ih ms₁ h (allStep_inv mf r σ₀ ms ms₁ hstep hinv)

theorem explFinish_inv (mf : MapFactory) (name : String) (m : MapnikMap) (σ₀ σ : Store)
    (nr : Nat) (rq : String) (ms' : MapnikMap × Store)
    (h : explFinish mf name m σ nr rq = .ok ms')
    (hsp : storePres σ₀ σ) (hnr : σ₀.length ≤ nr)
    (hml : ∀ r ∈ m.mlayers, σ₀.length ≤ r) : c7inv σ₀ ms' := by
  unfold explFinish at h
  have hsp₂ : storePres σ₀
      (match alookup mf.aggregatestyles rq with
       | some mems => appendStylesToLayer σ nr mems
       | none => appendStyleToLayer σ nr rq) := by
    cases alookup mf.aggregatestyles rq with
    | some mems => exact appendStylesToLayer_pres σ₀ mems σ nr hsp hnr
    | none => exact appendStyleToLayer_pres σ₀ σ nr rq hsp hnr
  cases hgl : getLayer
      (match alookup mf.aggregatestyles rq with
       | some mems => appendStylesToLayer σ nr mems
       | none => appendStyleToLayer σ nr rq) nr with
  | error e => simp only [hgl] at h; exact Except.noConfusion h
  | ok layer₂ =>
    simp only [hgl] at h
    cases hreg : regStylesStrict mf name layer₂.styles m with
    | error e => simp only [hreg] at h; exact Except.noConfusion h
    | ok m₁ =>
      simp only [hreg, Except.ok.injEq] at h
      rw [← h]
      refine ⟨hsp₂, fun q hq => ?_⟩
      simp only [regStylesStrict_mlayers mf name layer₂.styles m m₁ hreg,
        List.mem_append, List.mem_singleton] at hq
      cases hq with
      | inl hq => exact hml q hq
      | inr hq => exact hq ▸ hnr

theorem explStep_inv (mf : MapFactory) (sp : List String) (i : Nat) (name : String)
    (σ₀ : Store) (ms ms' : MapnikMap × Store)
    (h : explStep mf sp i name ms = .ok ms') (hinv : c7inv σ₀ ms) : c7inv σ₀ ms' := by
  unfold explStep at h
  cases hml : alookup mf.meta_layers name with
  | some mr =>
    simp only [hml] at h
    cases hca : copyLayerAlloc ms.2 mr with
    | error e => simp only [hca] at h; exact Except.noConfusion h
    | ok pair =>
      obtain ⟨σ₁, nr⟩ := pair
      obtain ⟨hsp₁, hnr⟩ := copyLayerAlloc_spec ms.2 mr σ₁ nr hca
      have hsp₀ : storePres σ₀ σ₁ := storePres_trans hinv.1 hsp₁
      have hnr₀ : σ₀.length ≤ nr := hnr ▸ hinv.1.1
      simp only [hca] at h
      cases hlk : alookup mf.meta_styles name with
      | none => simp only [hlk] at h; exact Except.noConfusion h
      | some sobj =>
        simp only [hlk, Except.ok.injEq] at h
        rw [← h]
        refine ⟨appendStyleToLayer_pres σ₀ σ₁ nr name hsp₀ hnr₀, fun q hq => ?_⟩
        simp only [mapAppendStyle_mlayers, List.mem_append, List.mem_singleton] at hq
        cases hq with
        | inl hq => exact hinv.2 q hq
        | inr hq => exact hq ▸ hnr₀
  | none =>
    simp only [hml] at h
    cases hcl : alookup mf.layers name with
    | none => simp only [hcl] at h; exact Except.noConfusion h
    | some cr =>
      simp only [hcl] at h
      cases hca : copyLayerAlloc ms.2 cr with
      | error e => simp only [hca] at h; exact Except.noConfusion h
      | ok pair =>
        obtain ⟨σ₁, nr⟩ := pair
        obtain ⟨hsp₁, hnr⟩ := copyLayerAlloc_spec ms.2 cr σ₁ nr hca
        have hsp₀ : storePres σ₀ σ₁ := storePres_trans hinv.1 hsp₁
        have hnr₀ : σ₀.length ≤ nr := hnr ▸ hinv.1.1
        simp only [hca] at h
        cases hgl : getLayer σ₁ nr with
        | error e => simp only [hgl] at h; exact Except.noConfusion h
        | ok layer =>
          simp only [hgl] at h
          by_cases hrq : (sp.get? i).getD "" ≠ ""
          · rw [if_pos hrq] at h
            cases hexs : layer.wmsextrastyles with
            | none => simp only [hexs] at h; exact Except.noConfusion h
            | some exs =>
              simp only [hexs] at h
              by_cases hmem : (sp.get? i).getD "" ∈ exs
              · rw [if_pos hmem] at h
                exact explFinish_inv mf name ms.1 σ₀ σ₁ nr _ ms' h hsp₀ hnr₀ hinv.2
              · rw [if_neg hmem] at h; exact Except.noConfusion h
          · rw [if_neg hrq] at h
            cases hds : layer.wmsdefaultstyle with
            | none => simp only [hds] at h; exact Except.noConfusion h
            | some ds =>
              simp only [hds] at h
              exact explFinish_inv mf name ms.1 σ₀ σ₁ nr ds ms' h hsp₀ hnr₀ hinv.2

theorem buildExpl_inv (mf : MapFactory) (sp : List String) (i : Nat)
    (names : List String) (σ₀ : Store) (ms ms' : MapnikMap × Store)
    (h : buildExpl mf sp i names ms = .ok ms') (hinv : c7inv σ₀ ms) : c7inv σ₀ ms' := by
  induction names generalizing i ms with
  | nil =>
    simp only [buildExpl, Except.ok.injEq] at h
    rw [← h]; exact hinv
  | cons name rest ih =>
    unfold buildExpl at h
    cases hstep : explStep mf sp i name ms with
    | error e => simp only [hstep] at h; exact Except.noConfusion h
    | ok ms₁ =>
      simp only [hstep] at h
      exact ih (i + 1) ms₁ h (explStep_inv mf sp i name σ₀ ms ms₁ hstep hinv)

theorem buildLayers_inv (mf : MapFactory) (p : WMSParams) (σ₀ : Store)
    (ms ms' : MapnikMap × Store) (h : buildLayers mf p ms = .ok ms')
    (hinv : c7inv σ₀ ms) : c7inv σ₀ ms' := by
  unfold buildLayers at h
  cases hl : p.layers with
  | nil =>
    simp only [hl] at h
    exact buildExpl_inv mf p.styles 0 p.layers σ₀ ms ms' (by rw [hl]; exact h) hinv
  | cons hd tl =>
    simp only [hl] at h
    by_cases hh : hd ∈ haitiNames
    · rw [if_pos hh] at h
      exact buildHaiti_inv mf mf.ordered_layers σ₀ ms ms' h hinv
    · rw [if_neg hh] at h
      by_cases ha : hd = "__all__"
      · rw [if_pos ha] at h
        exact buildAll_inv mf mf.ordered_layers σ₀ ms ms' h hinv
      · rw [if_neg ha] at h
        exact buildExpl_inv mf p.styles 0 p.layers σ₀ ms ms' (by rw [hl]; exact h) hinv

theorem resolveBackground_mlayers (h : WMSHandler) (p : WMSParams) (m0 m₁ : MapnikMap)
    (hbg : resolveBackground h p m0 = .ok m₁) : m₁.mlayers = m0.mlayers := by
  unfold resolveBackground at hbg
  by_cases h1 : p.transparent.isSome ∧ p.transparent.getD "" ∈ falseStrings
  · rw [if_pos h1] at hbg
    cases hb : p.bgcolor with
    | none => rw [hb] at hbg; exact Except.noConfusion hbg
    | some c =>
      rw [hb] at hbg
      simp only [Except.ok.injEq] at hbg
      rw [← hbg]
  · rw [if_neg h1] at hbg
    by_cases h2 : p.transparent.isNone = true ∧ h.mapfactory.map_attributes_bgcolor.isSome = true
    · rw [if_pos h2] at hbg
      simp only [Except.ok.injEq] at hbg
      rw [← hbg]
    · rw [if_neg h2] at hbg
      simp only [Except.ok.injEq] at hbg
      rw [← hbg]

theorem resolveBuffer_mlayers (h : WMSHandler) (p : WMSParams) (m : MapnikMap) :
    (resolveBuffer h p m).mlayers = m.mlayers := by
  unfold resolveBuffer
  cases p.buffer_size with
  | some b => by_cases hb : b ≠ 0 <;> simp [hb]
  | none =>
    cases h.mapfactory.map_attributes_buffer with
    | some b => by_cases hb : b ≠ 0 <;> simp [hb]
    | none => rfl

/-- C7: map building never mutates the catalog's layer objects.  Whenever
`_buildMap` succeeds, every store entry that existed before the call —
in particular every catalog layer, style list included — is unchanged, and
every layer reference held by the built map points at a freshly-allocated
copy (an index past the original store), so the per-request style-list
mutation shares no layer object with the catalog. -/
theorem c7_catalog_preserved_thm (h : WMSHandler) (p : WMSParams) (σ : Store)
    (m : MapnikMap) (σ₂ : Store) (hok : buildMap h p σ = .ok (m, σ₂)) :
    (∀ i, i < σ.length → σ₂.get? i = σ.get? i) ∧
    (∀ r ∈ m.mlayers, σ.length ≤ r) := by
  unfold buildMap at hok
  by_cases hcrs : crsRepr p.crs ∉ h.allowedepsgcodes
  · rw [if_pos hcrs] at hok; exact Except.noConfusion hok
  rw [if_neg hcrs] at hok
  by_cases hb1 : p.bbox0 ≥ p.bbox2
  · rw [if_pos hb1] at hok; exact Except.noConfusion hok
  rw [if_neg hb1] at hok
  by_cases hb2 : p.bbox1 ≥ p.bbox3
  · rw [if_pos hb2] at hok; exact Except.noConfusion hok
  rw [if_neg hb2] at hok
  cases hbg : resolveBackground h p (initMap p) with
  | error e => simp only [hbg] at hok; exact Except.noConfusion hok
  | ok m₁ =>
    simp only [hbg] at hok
    cases hbl : buildLayers h.mapfactory p (resolveBuffer h p m₁, σ) with
    | error e => simp only [hbl] at hok; exact Except.noConfusion hok
    | ok ms₃ =>
      obtain ⟨m₃, σ₃⟩ := ms₃
      simp only [hbl, Except.ok.injEq, Prod.mk.injEq] at hok
      have hinv0 : c7inv σ (resolveBuffer h p m₁, σ) := by
        refine ⟨storePres_refl σ, fun r hr => ?_⟩
        rw [resolveBuffer_mlayers, resolveBackground_mlayers h p (initMap p) m₁ hbg] at hr
        exact absurd hr (List.not_mem_nil r)
      have hinv := buildLayers_inv h.mapfactory p σ (resolveBuffer h p m₁, σ) (m₃, σ₃) hbl hinv0
      constructor
      · intro i hi
        rw [← hok.2]
        exact hinv.1.2 i hi
      · intro r hr
        rw [← hok.1] at hr
        exact hinv.2 r hr

/-- C7 witness: concrete application of `c7_catalog_preserved_thm` — after a
successful `_buildMap` over the two-layer catalog, catalog entry 0 is
unchanged and the map's only layer reference (2) points past the catalog. -/
theorem c7_catalog_preserved_witness :
    c7σ2.get? 0 = storeAB.get? 0 ∧ storeAB.length ≤ 2 :=
  ⟨(c7_catalog_preserved_thm hAB c7P storeAB c7M c7σ2 (by rfl)).1 0 (by decide),
   (c7_catalog_preserved_thm hAB c7P storeAB c7M c7σ2 (by rfl)).2 2 (by decide)⟩

end OGCServer
